import Mathlib

/-!
# Verification of the Cochrane-RAG retrieval-and-ranking core

Shallow embedding of the retrieval pipeline of the Cochrane-RAG repository:
query decomposition (`src/retrieving/query_decomposer.py`), query rewriting and
RRF fusion (`src/retrieving/query_rewriter.py`), multi-query retrieval with
priority-weighted deduplication and diversity interleaving
(`src/retrieving/multi_query_retriever.py`), the medical reranker
(`src/retrieving/reranker.py`), and hierarchical context enrichment
(`src/retrieving/retriever.py`).

Python floats are modelled as `ℚ`, Python strings as `String`, Python dicts
(which preserve insertion order) as association lists updated in place, and
calls to external services (index searches, parent-chunk fetches, LLM calls)
as explicit `Option`-valued inputs where `none` models a raised exception or
a failed/disabled call. Python `sorted`/`list.sort` (stable) is modelled by
`List.mergeSort`, which is also stable; `reverse=True` and `key=` are folded
into the Boolean comparison.
-/

namespace CochraneRAG

/-! ## Python-modelling helpers -/

/-- Python's `str.lower()` (extensionally `String.toLower`, whose byte-position
recursion does not reduce; the list form evaluates). -/
def pyLower (s : String) : String := String.mk (s.toList.map Char.toLower)

/-- Python's `str.upper()`. -/
def pyUpper (s : String) : String := String.mk (s.toList.map Char.toUpper)

/-- Python's substring test (the `in` operator on strings). -/
def strContains (s sub : String) : Bool := decide (sub.toList <:+: s.toList)

/-- Python's `any(kw in s for kw in kws)`. -/
def anyKeywordIn (s : String) (kws : List String) : Bool := kws.any (fun k => strContains s k)

/-- Python's `abs` on floats, on `ℚ` (agrees with `|·|`, see `pyAbs_eq_abs`;
spelled out so that concrete instances evaluate). -/
def pyAbs (q : ℚ) : ℚ := if q < 0 then -q else q

/-- Python's `str.split()` : split on whitespace, dropping empty pieces
(list-based so that concrete instances evaluate). -/
def pySplit (s : String) : List String :=
  ((s.toList.splitOnP Char.isWhitespace).map String.mk).filter (fun w => w ≠ "")

/-- Python's `" ".join(words)`. -/
def joinSpace : List String → String
  | [] => ""
  | [x] => x
  | x :: xs => x ++ " " ++ joinSpace xs

/-- Python's `"\n\n".join(parts)`. -/
def joinParts : List String → String
  | [] => ""
  | [x] => x
  | x :: xs => x ++ "\n\n" ++ joinParts xs

/-- Lookup in an insertion-ordered association list (Python `d[k]` / `k in d`). -/
def alGet {α : Type} (l : List (String × α)) (k : String) : Option α :=
  match l with
  | [] => none
  | (k', v) :: rest => if k' = k then some v else alGet rest k

/-- Assignment `d[k] = v` on an insertion-ordered association list: an existing
key keeps its position, a new key is appended at the end (CPython dict semantics). -/
def alSet {α : Type} (l : List (String × α)) (k : String) (v : α) : List (String × α) :=
  match l with
  | [] => [(k, v)]
  | (k', v') :: rest => if k' = k then (k, v) :: rest else (k', v') :: alSet rest k v

def alKeys {α : Type} (l : List (String × α)) : List String := l.map Prod.fst

/-- First-seen accumulation of one key (used to state which keys a Python dict
holds, in insertion order). -/
def addSeen (acc : List String) (x : String) : List String :=
  if x ∈ acc then acc else acc ++ [x]

/-- First-seen deduplication of a list of keys, continuing from `acc`. -/
def seenFold (acc : List String) (l : List String) : List String := l.foldl addSeen acc

/-! ## Data model

`RetrievalResult` mirrors the dataclass of `src/retrieving/retriever.py`
(fields irrelevant to the verified claims — `title`, `url`, `doi`,
`topic_name`, `quality_grade` — are omitted; nothing verified here reads or
writes them). -/

structure RetrievalResult where
  chunk_id : String
  document_id : String := ""
  level : String := ""
  content : String := ""
  section_name : String := ""
  subsection_name : String := ""
  is_statistical : Bool := false
  distance : ℚ := 0
  parent_chunk_id : String := ""
  enriched_content : String := ""
  sub_query_intent : String := ""
  sub_query_priority : ℕ := 0
deriving DecidableEq, Repr

/-- `SubQuery` dataclass of `src/retrieving/query_decomposer.py`. -/
structure SubQuery where
  text : String
  intent : String
  priority : ℕ
  statistical_only : Bool := false
  section_hint : Option String := none
deriving DecidableEq, Repr

/-! ## `MedicalReranker` (`src/retrieving/reranker.py`) -/

/-- Document metadata as read by the reranker via `metadata.get(...)`.
`relevance_score` is `none` when the key is absent (Python then defaults
to `0.5`). -/
structure DocMetadata where
  quality_grade : String := ""
  is_statistical : Bool := false
  section_name : String := ""
  relevance_score : Option ℚ := none
deriving DecidableEq, Repr

/-- An input document `{"page_content": ..., "metadata": {...}}`. -/
structure InputDoc where
  page_content : String := ""
  metadata : DocMetadata := {}
deriving DecidableEq, Repr

/-- The `score_breakdown` dict attached to each scored document. -/
structure ScoreBreakdown where
  quality : ℚ
  statistical : ℚ
  «section» : ℚ
  semantic : ℚ
  final : ℚ
deriving DecidableEq, Repr

/-- `ScoredDocument` dataclass. -/
structure ScoredDocument where
  content : String
  metadata : DocMetadata
  base_score : ℚ
  rerank_score : ℚ
  score_breakdown : ScoreBreakdown
deriving DecidableEq, Repr

/-- `MedicalReranker.__init__`: normalize the four raw weights to sum 1.0.
Python raises `ZeroDivisionError` when the raw total is 0; in `ℚ` the
quotients are then 0, and every theorem below assumes a nonzero total. -/
def normalizeWeights (wq ws wsec wsem : ℚ) : ℚ × ℚ × ℚ × ℚ :=
  let total := wq + ws + wsec + wsem
  (wq / total, ws / total, wsec / total, wsem / total)

/-- `QUALITY_SCORES` lookup with default 0.5: `.get(grade.upper(), 0.5)`
(the `""` entry of the dict also maps to 0.5, so the catch-all covers it). -/
def scoreQuality (m : DocMetadata) : ℚ :=
  match pyUpper m.quality_grade with
  | "A" => 1
  | "B" => 7/10
  | "C" => 2/5
  | _ => 1/2

/-- `MedicalReranker._score_statistical_relevance`. -/
def scoreStatisticalRelevance (m : DocMetadata) (is_statistical_query : Bool) : ℚ :=
  if is_statistical_query then
    if m.is_statistical then 1 else 3/10
  else
    if m.is_statistical then 3/5 else 1/2

/-- `SECTION_PRIORITIES` table; `.get(query_intent, SECTION_PRIORITIES["general"])`
is folded into the catch-all (the `"general"` entry equals the default). -/
def sectionPriorities (query_intent : String) : List String :=
  match query_intent with
  | "effectiveness" => ["results", "authors_conclusions", "main_results"]
  | "safety" => ["results", "discussion", "adverse_effects"]
  | "methodology" => ["methods", "search_methods", "data_collection"]
  | "statistical" => ["results", "statistical_analysis"]
  | "conclusion" => ["authors_conclusions", "discussion"]
  | "background" => ["background", "abstract"]
  | _ => ["abstract", "main_results", "authors_conclusions"]

/-- The `for idx, priority_section in enumerate(relevant_sections)` loop of
`_score_section_relevance`: first substring match at index `idx` scores
`1.0 - idx * 0.15`, no match scores `0.4`. -/
def sectionLoop (sectionLower : String) : List String → ℕ → ℚ
  | [], _ => 2/5
  | p :: rest, idx =>
    if strContains sectionLower p then 1 - (idx : ℚ) * (3/20) else sectionLoop sectionLower rest (idx + 1)

/-- `MedicalReranker._score_section_relevance`. -/
def scoreSectionRelevance (m : DocMetadata) (query_intent : String) : ℚ :=
  sectionLoop (pyLower m.section_name) (sectionPriorities query_intent) 0

/-- `MedicalReranker._detect_query_intent`. -/
def detectQueryIntent (query : String) : String :=
  let ql := pyLower query
  if anyKeywordIn ql ["effective", "efficacy", "treatment", "therapy", "intervention", "benefit"]
  then "effectiveness"
  else if anyKeywordIn ql ["safety", "safe", "adverse", "side effect", "harm", "risk", "toxicity"]
  then "safety"
  else if anyKeywordIn ql ["method", "how", "design", "study design", "search strategy", "criteria"]
  then "methodology"
  else if anyKeywordIn ql ["statistical", "p-value", "confidence", "significance", "evidence"]
  then "statistical"
  else if anyKeywordIn ql ["conclusion", "recommend", "implication", "should", "guideline"]
  then "conclusion"
  else if anyKeywordIn ql ["what is", "overview", "background", "about", "define"]
  then "background"
  else "general"

/-- `MedicalReranker._is_statistical_query`. -/
def isStatisticalQuery (query : String) : Bool :=
  anyKeywordIn (pyLower query)
    ["statistical", "statistically", "p-value", "p value", "confidence interval", "ci",
     "significance", "significant", "odds ratio", "or", "risk ratio", "rr", "hazard ratio",
     "hr", "effect size", "mean difference", "standardized mean difference", "meta-analysis",
     "pooled", "heterogeneity"]

/-- Score one document with the (already normalized) component weights
`(wq, ws, wsec, wsem)`, a detected query intent and statistical-query flag. -/
def scoreDoc (w : ℚ × ℚ × ℚ × ℚ) (query_intent : String) (is_statistical_query : Bool)
    (doc : InputDoc) : ScoredDocument :=
  let quality_score := scoreQuality doc.metadata
  let statistical_score := scoreStatisticalRelevance doc.metadata is_statistical_query
  let section_score := scoreSectionRelevance doc.metadata query_intent
  let semantic_score := (doc.metadata.relevance_score).getD (1/2)
  let rerank_score :=
    quality_score * w.1 + statistical_score * w.2.1 + section_score * w.2.2.1 +
      semantic_score * w.2.2.2
  { content := doc.page_content
    metadata := doc.metadata
    base_score := semantic_score
    rerank_score := rerank_score
    score_breakdown :=
      { quality := quality_score, statistical := statistical_score, «section» := section_score,
        semantic := semantic_score, final := rerank_score } }

/-- Comparison for `scored_docs.sort(key=lambda x: x.rerank_score, reverse=True)`
(stable descending). -/
def byRerankDesc (a b : ScoredDocument) : Bool := decide (b.rerank_score ≤ a.rerank_score)

/-- `MedicalReranker.rerank` with normalized weights `w`. `top_k` is `Option ℕ`;
Python's `if top_k:` is falsy both for `None` and for `0`. -/
def rerank (w : ℚ × ℚ × ℚ × ℚ) (documents : List InputDoc) (query : String)
    (top_k : Option ℕ) : List ScoredDocument :=
  let query_intent := detectQueryIntent query
  let is_statistical_query := isStatisticalQuery query
  let scored_docs := documents.map (scoreDoc w query_intent is_statistical_query)
  let sorted_docs := scored_docs.mergeSort byRerankDesc
  match top_k with
  | some k => if k = 0 then sorted_docs else sorted_docs.take k
  | none => sorted_docs

/-! ## `MedicalQueryDecomposer` (`src/retrieving/query_decomposer.py`) -/

/-- `_detect_multiple_intents`: collect matched intent keyword families,
in the fixed order of the source; `["general"]` when none match. -/
def detectMultipleIntents (query : String) : List String :=
  let ql := pyLower query
  let intents :=
    (if anyKeywordIn ql ["effective", "efficacy", "benefit", "improve", "work", "help"]
     then ["effectiveness"] else []) ++
    (if anyKeywordIn ql ["safe", "safety", "adverse", "side effect", "harm", "risk", "toxic"]
     then ["safety"] else []) ++
    (if anyKeywordIn ql ["compare", "versus", "vs ", "better than", "superior to"]
     then ["comparison"] else []) ++
    (if anyKeywordIn ql ["method", "methodology", "design", "study design", "how study"]
     then ["methodology"] else []) ++
    (if anyKeywordIn ql ["statistical", "statistically", "p-value", "confidence interval",
        "evidence", "odds ratio", "risk ratio"]
     then ["statistical"] else [])
  if intents.isEmpty then ["general"] else intents

/-- `MedicalQueryDecomposer.should_decompose`. -/
def shouldDecompose (query : String) : Bool :=
  let ql := pyLower query
  if 2 ≤ (detectMultipleIntents query).length then true
  else if strContains ql " and " ∧ anyKeywordIn ql ["effective", "safe", "compare"] then true
  else if strContains ql "compare" ∨ strContains ql "versus" ∨ strContains ql " vs " then true
  else if anyKeywordIn ql ["both", "as well as", "along with"] then true
  else false

/-- `_get_section_hint`: the fixed intent→section map, `none` for `"general"`
and for unknown intents (Python `dict.get` returns `None`). -/
def getSectionHint (intent : String) : Option String :=
  match intent with
  | "effectiveness" => some "results"
  | "safety" => some "results"
  | "comparison" => some "results"
  | "methodology" => some "methods"
  | "statistical" => some "results"
  | "conclusion" => some "authors_conclusions"
  | "background" => some "background"
  | _ => none

/-- `_extract_around_keyword`: the slice `words[max(0, i-7) : min(len, i+8)]`
around the first word containing one of the keywords (case-insensitively). -/
def extractAroundKeyword (query : String) (keywords : List String) : String :=
  let words := pySplit query
  match words.findIdx? (fun w => keywords.any (fun kw => strContains (pyLower w) (pyLower kw))) with
  | some i =>
    let start := i - 7
    let stop := min words.length (i + 8)
    joinSpace ((words.drop start).take (stop - start))
  | none => query

/-- `_focus_query`. -/
def focusQuery (query : String) (target_intent : String) : String :=
  let ql := pyLower query
  match target_intent with
  | "effectiveness" =>
    if strContains ql "effective" ∨ strContains ql "efficacy" then
      extractAroundKeyword query ["effective", "efficacy"]
    else "Effectiveness of " ++ query
  | "safety" =>
    if strContains ql "safe" ∨ strContains ql "adverse" then
      extractAroundKeyword query ["safe", "adverse", "side effect"]
    else "Safety and adverse effects of " ++ query
  | "methodology" =>
    if strContains ql "method" then
      extractAroundKeyword query ["method", "methodology", "design"]
    else "Methodology for " ++ query
  | "statistical" =>
    if strContains ql "statistical" ∨ strContains ql "evidence" then
      extractAroundKeyword query ["statistical", "evidence"]
    else "Statistical evidence for " ++ query
  | _ => query

/-- `_keyword_based_decompose`. -/
def keywordBasedDecompose (query : String) : List SubQuery :=
  let intents := detectMultipleIntents query
  let sub_queries :=
    (if intents.contains "effectiveness" then
      [{ text := focusQuery query "effectiveness", intent := "effectiveness", priority := 1,
         section_hint := some "results" : SubQuery }] else []) ++
    (if intents.contains "safety" then
      [{ text := focusQuery query "safety", intent := "safety", priority := 1,
         section_hint := some "results" : SubQuery }] else []) ++
    (if intents.contains "comparison" then
      [{ text := query, intent := "comparison", priority := 1,
         section_hint := some "results" : SubQuery }] else []) ++
    (if intents.contains "methodology" then
      [{ text := focusQuery query "methodology", intent := "methodology", priority := 1,
         section_hint := some "methods" : SubQuery }] else []) ++
    (if intents.contains "statistical" then
      [{ text := focusQuery query "statistical", intent := "statistical", priority := 1,
         statistical_only := true, section_hint := some "results" : SubQuery }] else [])
  if sub_queries.isEmpty then
    [{ text := query, intent := detectQueryIntent query, priority := 1,
       section_hint := getSectionHint (detectQueryIntent query) }]
  else sub_queries

/-- `MedicalQueryDecomposer.decompose`. The `llm` argument models the outcome
of `_llm_decompose`: `some sqs` when the LLM call succeeded and parsed to a
nonempty list, `none` when the LLM is disabled, raised, or returned nothing
usable (all those paths fall back to `_keyword_based_decompose`). -/
def decompose (query : String) (llm : Option (List SubQuery)) : List SubQuery :=
  if ¬ shouldDecompose query then
    [{ text := query, intent := detectQueryIntent query, priority := 1,
       statistical_only := isStatisticalQuery query,
       section_hint := getSectionHint (detectQueryIntent query) }]
  else
    match llm with
    | some sqs => sqs
    | none => keywordBasedDecompose query

/-! ## `QueryFusionRetriever.retrieve` (`src/retrieving/query_rewriter.py`)

A fan-out search outcome is the variant's fusion weight paired with
`some results` when `base_retriever.search` returned, `none` when it raised
(the `except` branch logs and `continue`s). -/

/-- The mutable state of the retrieve loop: the insertion-ordered dicts
`all_results : chunk_id -> result` and `variant_ranks : chunk_id -> [(rank, weight)]`. -/
abbrev FusionState :=
  List (String × RetrievalResult) × List (String × List (ℕ × ℚ))

/-- The body of `for rank, result in enumerate(results)`. -/
def recordResult (st : FusionState) (w : ℚ) (rank : ℕ) (r : RetrievalResult) : FusionState :=
  match alGet st.1 r.chunk_id with
  | none =>
    (alSet st.1 r.chunk_id r, alSet st.2 r.chunk_id [(rank, w)])
  | some _ =>
    (st.1, alSet st.2 r.chunk_id (((alGet st.2 r.chunk_id).getD []) ++ [(rank, w)]))

/-- Process one variant's result list, enumerating ranks from `rank`. -/
def recordVariant (w : ℚ) : FusionState → ℕ → List RetrievalResult → FusionState
  | st, _, [] => st
  | st, rank, r :: rs => recordVariant w (recordResult st w rank r) (rank + 1) rs

/-- One step of the fan-out loop: a raised search (`none`) is skipped. -/
def fusionStep (st : FusionState) (vs : ℚ × Option (List RetrievalResult)) : FusionState :=
  match vs.2 with
  | none => st
  | some results => recordVariant vs.1 st 0 results

/-- Steps 1–2 of `retrieve`: fan out over the variants, skipping the ones
whose search raised. -/
def collectResults (searches : List (ℚ × Option (List RetrievalResult))) : FusionState :=
  searches.foldl fusionStep ([], [])

/-- Step 3: the `fusion_scores` dict, in insertion order of `variant_ranks`. -/
def fusionScoresOf (rrf_k : ℚ) (searches : List (ℚ × Option (List RetrievalResult))) :
    List (String × ℚ) :=
  (collectResults searches).2.map
    (fun p => (p.1, (p.2.map (fun rw => rw.2 / (rrf_k + (rw.1 : ℚ)))).sum))

/-- Comparison for `sorted(fusion_scores.items(), key=lambda x: x[1], reverse=True)`
(stable descending by score). -/
def byScoreDesc (a b : String × ℚ) : Bool := decide (b.2 ≤ a.2)

/-- `QueryFusionRetriever.retrieve` given the per-variant search outcomes. -/
def fusionRetrieve (rrf_k : ℚ) (top_k : ℕ)
    (searches : List (ℚ × Option (List RetrievalResult))) : List RetrievalResult :=
  let st := collectResults searches
  if st.1.isEmpty then []
  else
    let sorted_chunks := ((fusionScoresOf rrf_k searches).mergeSort byScoreDesc).take top_k
    sorted_chunks.filterMap (fun p => alGet st.1 p.1)

/-! ### Declarative description of RRF fusion (the specification side) -/

/-- The successful (weight, result-list) pairs, in variant order. -/
def successLists (searches : List (ℚ × Option (List RetrievalResult))) :
    List (ℚ × List RetrievalResult) :=
  searches.filterMap (fun vs => vs.2.map (fun rs => (vs.1, rs)))

/-- All retrieved chunk ids in arrival order (with repetitions). -/
def allChunkIds (searches : List (ℚ × Option (List RetrievalResult))) : List String :=
  (successLists searches).flatMap (fun p => p.2.map RetrievalResult.chunk_id)

/-- The distinct chunk ids, in first-seen order. -/
def seenIds (searches : List (ℚ × Option (List RetrievalResult))) : List String :=
  seenFold [] (allChunkIds searches)

/-- Every (0-based rank, variant weight) pair at which `cid` appears, listed
variant by variant. -/
def specRankList (searches : List (ℚ × Option (List RetrievalResult))) (cid : String) :
    List (ℕ × ℚ) :=
  (successLists searches).flatMap
    (fun p => ((p.2.enum).filter (fun q => decide (q.2.chunk_id = cid))).map (fun q => (q.1, p.1)))

/-- The claim's RRF score: the sum of `weight / (rrf_k + rank)` over every
(variant, rank) at which `cid` appears. -/
def rrfSpecScore (rrf_k : ℚ) (searches : List (ℚ × Option (List RetrievalResult)))
    (cid : String) : ℚ :=
  ((specRankList searches cid).map (fun rw => rw.2 / (rrf_k + (rw.1 : ℚ)))).sum

/-- The (rank, weight) contributions of one variant with weight `w` to chunk
id `cid`, ranks counted from `n`. -/
def variantContrib (w : ℚ) (n : ℕ) (rs : List RetrievalResult) (cid : String) :
    List (ℕ × ℚ) :=
  ((rs.enumFrom n).filter (fun q => decide (q.2.chunk_id = cid))).map (fun q => (q.1, w))

/-- The first retrieved result carrying `cid`. -/
def firstResult (searches : List (ℚ × Option (List RetrievalResult))) (cid : String) :
    Option RetrievalResult :=
  ((successLists searches).flatMap Prod.snd).find? (fun r => decide (r.chunk_id = cid))

/-- Declarative RRF fusion: score each first-seen distinct chunk id by
`rrfSpecScore`, stable-sort descending, take `top_k`, return first-seen results. -/
def rrfFusionSpec (rrf_k : ℚ) (top_k : ℕ)
    (searches : List (ℚ × Option (List RetrievalResult))) : List RetrievalResult :=
  ((((seenIds searches).map (fun c => (c, rrfSpecScore rrf_k searches c))).mergeSort
      byScoreDesc).take top_k).filterMap
    (fun p => firstResult searches p.1)

/-! ## `MultiQueryRetriever` (`src/retrieving/multi_query_retriever.py`) -/

/-- Abs-based comparison for `sorted`/`sort` by distance (stable ascending). -/
def byDistanceAsc (a b : RetrievalResult) : Bool := decide (a.distance ≤ b.distance)

/-- Lexical comparison for `sorted(intent_groups.keys())`. -/
def byLexAsc (a b : String) : Bool := decide (a ≤ b)

/-- Tag results with the sub-query metadata (`result.sub_query_intent = ...` etc.). -/
def tagResults (sq : SubQuery) (rs : List RetrievalResult) : List RetrievalResult :=
  rs.map (fun r => { r with sub_query_intent := sq.intent, sub_query_priority := sq.priority })

/-- The dedup fold step of `_merge_and_deduplicate`. The
`hasattr(·, "sub_query_priority")` guards of the source are always true
because `sub_query_priority` is a dataclass field with a default. -/
def dedupStep (seen : List (String × RetrievalResult)) (r : RetrievalResult) :
    List (String × RetrievalResult) :=
  match alGet seen r.chunk_id with
  | some existing =>
    if r.distance < existing.distance then
      alSet seen r.chunk_id r
    else if pyAbs (r.distance - existing.distance) < 1/20 ∧
        r.sub_query_priority < existing.sub_query_priority then
      alSet seen r.chunk_id r
    else
      seen
  | none => alSet seen r.chunk_id r

/-- `MultiQueryRetriever._merge_and_deduplicate`: fold into the `seen` dict,
return `list(seen.values())`. -/
def mergeAndDeduplicate (results : List RetrievalResult) : List RetrievalResult :=
  (results.foldl dedupStep []).map Prod.snd

/-- One step of grouping by `sub_query_intent`. -/
def groupStep (groups : List (String × List RetrievalResult)) (r : RetrievalResult) :
    List (String × List RetrievalResult) :=
  match alGet groups r.sub_query_intent with
  | some g => alSet groups r.sub_query_intent (g ++ [r])
  | none => alSet groups r.sub_query_intent [r]

/-- Group results by `sub_query_intent` into an insertion-ordered dict
(the `sub_query_intent` field always exists, so `getattr`'s default is dead). -/
def groupByIntent (results : List RetrievalResult) :
    List (String × List RetrievalResult) :=
  results.foldl groupStep []

/-- One step of the final `seen`-set pass. -/
def dropStep (acc : List String × List RetrievalResult) (r : RetrievalResult) :
    List String × List RetrievalResult :=
  if r.chunk_id ∈ acc.1 then acc else (acc.1 ++ [r.chunk_id], acc.2 ++ [r])

/-- The final `seen`-set pass: drop duplicate chunk ids, preserving first-seen
order. -/
def dropDupIds (l : List RetrievalResult) : List RetrievalResult :=
  (l.foldl dropStep ([], [])).2

/-- `MultiQueryRetriever._sort_by_relevance_and_diversity`. With no groups at
all Python's `max()` would raise on an empty sequence; that path is
unreachable from `retrieve` (which guards on nonempty results) and is modelled
as `[]`. -/
def sortByRelevanceAndDiversity (results : List RetrievalResult) : List RetrievalResult :=
  let intent_groups := (groupByIntent results).map (fun p => (p.1, p.2.mergeSort byDistanceAsc))
  match intent_groups with
  | [(_, g)] => g
  | groups =>
    let max_len := (groups.map (fun p => p.2.length)).foldl max 0
    let sorted_intents := (groups.map Prod.fst).mergeSort byLexAsc
    let merged := (List.range max_len).flatMap
      (fun i => sorted_intents.filterMap (fun intent => (alGet groups intent).bind (fun g => g[i]?)))
    dropDupIds merged

/-- One step of the multi-sub-query fan-out: a raised search contributes
nothing, a successful one appends its tagged results. -/
def subSearchStep (acc : List RetrievalResult)
    (p : SubQuery × Option (List RetrievalResult)) : List RetrievalResult :=
  match p.2 with
  | none => acc
  | some rs => acc ++ tagResults p.1 rs

/-- `MultiQueryRetriever.retrieve` given the decomposed sub-queries paired with
their search outcomes (`none` models a raised search). The single-sub-query
path calls `search` outside any `try`, so a raised search propagates (`none`
overall); the multi-sub-query path isolates failures. -/
def multiQueryRetrieve (max_subqueries top_k : ℕ)
    (sub_searches : List (SubQuery × Option (List RetrievalResult))) :
    Option (List RetrievalResult) :=
  let subs := sub_searches.take max_subqueries
  match subs with
  | [(sq, outcome)] => outcome.map (tagResults sq)
  | subs' =>
    let all_results := subs'.foldl subSearchStep []
    if all_results.isEmpty then some []
    else some ((sortByRelevanceAndDiversity (mergeAndDeduplicate all_results)).take top_k)

/-! ## Context enrichment (`CochraneRetriever._enrich_with_hierarchical_context`) -/

/-- The parent-chunk properties read during enrichment. Python reads them via
`parent_chunk.get(...)`, with `""`/`False` as the falsy defaults. -/
structure ParentChunk where
  section_name : String := ""
  has_statistical_data : Bool := false
deriving DecidableEq, Repr

/-- Enrich one result. `fetch` models `_get_chunk_by_id`, which returns `None`
both when the chunk is missing and when the fetch raised (it catches all
exceptions). -/
def enrichOne (fetch : String → Option ParentChunk) (r : RetrievalResult) : RetrievalResult :=
  if r.level = "PARAGRAPH" ∧ r.parent_chunk_id ≠ "" then
    match fetch r.parent_chunk_id with
    | some parent =>
      let enriched_parts :=
        (if parent.section_name ≠ "" then ["## " ++ parent.section_name] else []) ++
        [r.content] ++
        (if parent.has_statistical_data then ["\n[Contains statistical analysis]"] else [])
      { r with enriched_content := joinParts enriched_parts }
    | none => { r with enriched_content := r.content }
  else if r.level = "SUBSECTION" then
    let enriched_parts :=
      (if r.section_name ≠ "" then ["## " ++ r.section_name] else []) ++
      (if r.subsection_name ≠ "" then ["### " ++ r.subsection_name] else []) ++
      [r.content]
    { r with enriched_content := joinParts enriched_parts }
  else
    { r with enriched_content := r.content }

/-- `_enrich_with_hierarchical_context` over a result list. -/
def enrichWithHierarchicalContext (fetch : String → Option ParentChunk)
    (results : List RetrievalResult) : List RetrievalResult :=
  results.map (enrichOne fetch)

/-! ## Concrete instances used by counterexamples and witnesses -/

/-- First-arriving occurrence for the C3 counterexample: distance 0.12,
priority 1. -/
def c3First : RetrievalResult :=
  { chunk_id := "c", distance := 3/25, sub_query_priority := 1 }

/-- Second-arriving occurrence for the C3 counterexample: distance 0.10,
priority 2. -/
def c3Second : RetrievalResult :=
  { chunk_id := "c", distance := 1/10, sub_query_priority := 2 }

/-- A far occurrence (distance 0.9, priority 2) for the C3 witness. -/
def c3Far : RetrievalResult :=
  { chunk_id := "d", distance := 9/10, sub_query_priority := 2 }

/-- A near occurrence (distance 0.1, priority 1) for the C3 witness. -/
def c3Near : RetrievalResult :=
  { chunk_id := "d", distance := 1/10, sub_query_priority := 1 }

/-- Four concrete results under two intents for the C4 witness: two
"effectiveness" candidates and two "safety" candidates with distinct
chunk ids and integral distances. -/
def c4a1 : RetrievalResult :=
  { chunk_id := "e1", distance := 1, sub_query_intent := "effectiveness" }

/-- Second "effectiveness" candidate for the C4 witness. -/
def c4a2 : RetrievalResult :=
  { chunk_id := "e2", distance := 2, sub_query_intent := "effectiveness" }

/-- First "safety" candidate for the C4 witness. -/
def c4b1 : RetrievalResult :=
  { chunk_id := "s1", distance := 3, sub_query_intent := "safety" }

/-- Second "safety" candidate for the C4 witness. -/
def c4b2 : RetrievalResult :=
  { chunk_id := "s2", distance := 4, sub_query_intent := "safety" }

/-- Candidate list for the C4 witness. -/
def c4Results : List RetrievalResult := [c4a1, c4a2, c4b1, c4b2]

/-- The position (if any) at which a candidate's lowercased `section_name`
first matches the intent's section-priority list by substring containment. -/
def sectionMatchIdx (m : DocMetadata) (query_intent : String) : Option ℕ :=
  (sectionPriorities query_intent).findIdx? (fun p => strContains (pyLower m.section_name) p)

/-- Metadata whose section matches `"effectiveness"`'s priority list at index 0. -/
def c6Results : DocMetadata := { section_name := "results" }

/-- Metadata whose section matches `"effectiveness"`'s priority list at index 1. -/
def c6Conclusions : DocMetadata := { section_name := "authors_conclusions" }

/-- A document with no stored relevance score (Python then defaults to 0.5). -/
def c5Doc : InputDoc := { page_content := "d", metadata := { quality_grade := "A" } }

/-- A SECTION-level candidate. -/
def c9Section : RetrievalResult := { chunk_id := "s", level := "SECTION", content := "sec body" }

/-- A SUBSECTION-level candidate with both header names present. -/
def c9Subsection : RetrievalResult :=
  { chunk_id := "ss", level := "SUBSECTION", content := "sub body",
    section_name := "Results", subsection_name := "Pain outcomes" }

/-- A PARAGRAPH-level candidate with a parent pointer. -/
def c9Paragraph : RetrievalResult :=
  { chunk_id := "p", level := "PARAGRAPH", content := "para body",
    parent_chunk_id := "parent1" }

/-- A parent fetch that succeeds on `"parent1"` with a statistical Results
parent and fails elsewhere. -/
def c9Fetch : String → Option ParentChunk :=
  fun cid =>
    if cid = "parent1" then some { section_name := "Results", has_statistical_data := true }
    else none

/-- A parent fetch that always fails (models `_get_chunk_by_id` returning
`None` after catching an exception). -/
def c9FetchFail : String → Option ParentChunk := fun _ => none

/-- The C8 counterexample query: exactly one intent family (safety), no
comparison or multi-outcome connective, but " and " next to "safe" triggers
decomposition, and the safety-focused rewrite truncates the 12-word query
to its first 10 words. -/
def c8Query : String :=
  "Is aspirin safe and suitable for elderly people with heart problems today"

/-- The C8 witness query: matches no decomposition trigger at all. -/
def c8Simple : String := "what is diabetes"

/-- Chunks for the C1 scenario. -/
def c1x : RetrievalResult := { chunk_id := "x" }

def c1y : RetrievalResult := { chunk_id := "y" }

def c1z : RetrievalResult := { chunk_id := "z" }

def c1w : RetrievalResult := { chunk_id := "w" }

/-- The C1 scenario's fan-out: variant A returns [x,y,z] with weight 1.0,
variant B returns [y,x,w] with weight 0.8. -/
def c1Searches : List (ℚ × Option (List RetrievalResult)) :=
  [(1, some [c1x, c1y, c1z]), (4/5, some [c1y, c1x, c1w])]

/-- A generic sub-query used by the C2 and C7 instances. -/
def c7Sub : SubQuery := { text := "q", intent := "general", priority := 1 }

/-- A single-sub-query fan-out whose only search succeeds (C2 witness). -/
def c2Subs : List (SubQuery × Option (List RetrievalResult)) :=
  [(c7Sub, some [c1x, c1y])]

/-- A two-sub-query fan-out in which every search raises (C7 witness). -/
def c7Subs : List (SubQuery × Option (List RetrievalResult)) :=
  [(c7Sub, none), (c7Sub, none)]

/-!
# Theorems
-/

/-! ## Association-list and helper lemmas -/

theorem pyAbs_eq_abs (q : ℚ) : pyAbs q = |q| := by
  unfold pyAbs
  rcases lt_or_le q 0 with h | h
  · rw [if_pos h, abs_of_neg h]
  · rw [if_neg (not_lt.mpr h), abs_of_nonneg h]

theorem alGet_alSet_self {α : Type} (l : List (String × α)) (k : String) (v : α) :
    alGet (alSet l k v) k = some v := by
  induction l with
  | nil => simp [alGet, alSet]
  | cons hd tl ih =>
    obtain ⟨k', v'⟩ := hd
    by_cases h : k' = k <;> simp [alGet, alSet, h, ih]

theorem alGet_alSet_ne {α : Type} (l : List (String × α)) (k k' : String) (v : α)
    (h : k ≠ k') : alGet (alSet l k v) k' = alGet l k' := by
  induction l with
  | nil => simp [alGet, alSet, h]
  | cons hd tl ih =>
    obtain ⟨k₀, v₀⟩ := hd
    by_cases h0 : k₀ = k
    · subst h0
      simp [alGet, alSet, h]
    · simp only [alSet, if_neg h0, alGet]
      by_cases h1 : k₀ = k' <;> simp [h1, ih]

theorem alKeys_alSet_mem {α : Type} (l : List (String × α)) (k : String) (v : α)
    (h : (alGet l k).isSome) : alKeys (alSet l k v) = alKeys l := by
  induction l with
  | nil => simp [alGet] at h
  | cons hd tl ih =>
    obtain ⟨k', v'⟩ := hd
    by_cases h0 : k' = k
    · simp [alSet, alKeys, h0]
    · simp only [alGet, if_neg h0] at h
      simp [alSet, alKeys, h0, ih h] at *
      exact ih h

theorem alKeys_alSet_new {α : Type} (l : List (String × α)) (k : String) (v : α)
    (h : alGet l k = none) : alKeys (alSet l k v) = alKeys l ++ [k] := by
  induction l with
  | nil => simp [alSet, alKeys]
  | cons hd tl ih =>
    obtain ⟨k', v'⟩ := hd
    by_cases h0 : k' = k
    · simp [alGet, h0] at h
    · simp only [alGet, if_neg h0] at h
      simp only [alSet, if_neg h0, alKeys, List.map_cons, List.cons_append, List.cons.injEq,
        true_and]
      exact ih h

theorem alGet_isSome_iff_mem {α : Type} (l : List (String × α)) (k : String) :
    (alGet l k).isSome ↔ k ∈ alKeys l := by
  induction l with
  | nil => simp [alGet, alKeys]
  | cons hd tl ih =>
    obtain ⟨k', v'⟩ := hd
    by_cases h0 : k' = k <;> simp [alGet, alKeys, h0, ih]
    exact fun h => (h0 h.symm).elim

theorem mem_alSet {α : Type} {l : List (String × α)} {k : String} {v : α} {p : String × α}
    (hp : p ∈ alSet l k v) : p = (k, v) ∨ p ∈ l := by
  induction l with
  | nil => simpa [alSet] using hp
  | cons hd tl ih =>
    obtain ⟨k₀, v₀⟩ := hd
    by_cases h0 : k₀ = k
    · rw [alSet, if_pos h0] at hp
      rcases List.mem_cons.mp hp with h | h
      · exact Or.inl h
      · exact Or.inr (List.mem_cons_of_mem _ h)
    · rw [alSet, if_neg h0] at hp
      rcases List.mem_cons.mp hp with h | h
      · exact Or.inr (h ▸ List.mem_cons_self _ _)
      · rcases ih h with h' | h'
        · exact Or.inl h'
        · exact Or.inr (List.mem_cons_of_mem _ h')

theorem mem_seenFold (x : String) :
    ∀ (l acc : List String), x ∈ seenFold acc l ↔ x ∈ acc ∨ x ∈ l
  | [], acc => by simp [seenFold]
  | y :: l, acc => by
    have step : seenFold acc (y :: l) = seenFold (addSeen acc y) l := rfl
    rw [step, mem_seenFold x l (addSeen acc y)]
    unfold addSeen
    by_cases h : y ∈ acc
    · rw [if_pos h]
      constructor
      · rintro (hx | hx)
        · exact Or.inl hx
        · exact Or.inr (List.mem_cons_of_mem _ hx)
      · rintro (hx | hx)
        · exact Or.inl hx
        · rcases List.mem_cons.mp hx with rfl | hx
          · exact Or.inl h
          · exact Or.inr hx
    · rw [if_neg h]
      simp only [List.mem_append, List.mem_singleton, List.mem_cons]
      tauto

theorem seenFold_nodup :
    ∀ (l acc : List String), acc.Nodup → (seenFold acc l).Nodup
  | [], _, h => h
  | y :: l, acc, h => by
    have step : seenFold acc (y :: l) = seenFold (addSeen acc y) l := rfl
    rw [step]
    apply seenFold_nodup l
    unfold addSeen
    by_cases hy : y ∈ acc
    · simpa [hy]
    · rw [if_neg hy]
      simp [List.nodup_append, h, hy]

theorem seenFold_append (acc : List String) (l₁ l₂ : List String) :
    seenFold acc (l₁ ++ l₂) = seenFold (seenFold acc l₁) l₂ := by
  simp [seenFold, List.foldl_append]

theorem alExt {α : Type} :
    ∀ (l : List (String × α)) (K : List String) (f : String → α),
      alKeys l = K → K.Nodup → (∀ c ∈ K, alGet l c = some (f c)) →
      l = K.map (fun c => (c, f c))
  | [], [], _, _, _, _ => rfl
  | [], k :: K, f, hk, _, _ => by simp [alKeys] at hk
  | (k', v) :: l, [], f, hk, _, _ => by simp [alKeys] at hk
  | (k', v) :: l, k :: K, f, hk, hnd, hget => by
    simp only [alKeys, List.map_cons, List.cons.injEq] at hk
    obtain ⟨rfl, hk2⟩ := hk
    have hv : some v = some (f k') := by
      have := hget k' (List.mem_cons_self _ _)
      simpa [alGet] using this
    have htail : ∀ c ∈ K, alGet l c = some (f c) := by
      intro c hc
      have hne : k' ≠ c := fun he => (List.nodup_cons.mp hnd).1 (he ▸ hc)
      have := hget c (List.mem_cons_of_mem _ hc)
      rwa [alGet, if_neg hne] at this
    have := alExt l K f hk2 (List.nodup_cons.mp hnd).2 htail
    simp only [List.map_cons, List.cons.injEq]
    exact ⟨by simpa using hv, this⟩

/-! ## RRF fusion: characterizing the retrieve loop state -/

theorem variantContrib_cons (w : ℚ) (n : ℕ) (r : RetrievalResult)
    (rs : List RetrievalResult) (c : String) :
    variantContrib w n (r :: rs) c =
      (if r.chunk_id = c then [(n, w)] else []) ++ variantContrib w (n + 1) rs c := by
  by_cases h : r.chunk_id = c <;> simp [variantContrib, h]

theorem variantContrib_nil (w : ℚ) :
    ∀ (rs : List RetrievalResult) (n : ℕ) (c : String),
      c ∉ rs.map RetrievalResult.chunk_id → variantContrib w n rs c = []
  | [], _, _, _ => rfl
  | r :: rs, n, c, h => by
    simp only [List.map_cons, List.mem_cons] at h
    push_neg at h
    rw [variantContrib_cons, if_neg (fun he => h.1 he.symm), List.nil_append]
    exact variantContrib_nil w rs (n + 1) c h.2

theorem recordVariant_spec (w : ℚ) :
    ∀ (rs : List RetrievalResult) (n : ℕ) (st : FusionState),
      alKeys st.1 = alKeys st.2 →
      (alKeys (recordVariant w st n rs).1 =
          seenFold (alKeys st.1) (rs.map RetrievalResult.chunk_id) ∧
        alKeys (recordVariant w st n rs).2 =
          seenFold (alKeys st.1) (rs.map RetrievalResult.chunk_id)) ∧
      (∀ c, alGet (recordVariant w st n rs).1 c =
        match alGet st.1 c with
        | some v => some v
        | none => rs.find? (fun r => decide (r.chunk_id = c))) ∧
      (∀ c, alGet (recordVariant w st n rs).2 c =
        match alGet st.2 c with
        | some L => some (L ++ variantContrib w n rs c)
        | none =>
          if (rs.map RetrievalResult.chunk_id).contains c then
            some (variantContrib w n rs c)
          else none)
  | [], n, st, hk => by
    refine ⟨⟨rfl, hk.symm⟩, ?_, ?_⟩
    · intro c
      cases h : alGet st.1 c <;> simp [recordVariant, h]
    · intro c
      cases h : alGet st.2 c <;> simp [recordVariant, variantContrib, h]
  | r :: rs, n, st, hk => by
    have hmem_iff : r.chunk_id ∈ alKeys st.1 ↔ (alGet st.1 r.chunk_id).isSome :=
      (alGet_isSome_iff_mem st.1 r.chunk_id).symm
    cases h1 : alGet st.1 r.chunk_id with
    | none =>
      have hmem : r.chunk_id ∉ alKeys st.1 := by
        rw [hmem_iff, h1]
        simp
      have h2 : alGet st.2 r.chunk_id = none := by
        rw [← Option.not_isSome_iff_eq_none, alGet_isSome_iff_mem, ← hk]
        exact hmem
      have hstep : recordVariant w st n (r :: rs) =
          recordVariant w (alSet st.1 r.chunk_id r, alSet st.2 r.chunk_id [(n, w)]) (n + 1) rs :=
        by simp [recordVariant, recordResult, h1]
      have hk₁ : alKeys (alSet st.1 r.chunk_id r) = alKeys (alSet st.2 r.chunk_id [(n, w)]) := by
        rw [alKeys_alSet_new _ _ _ h1, alKeys_alSet_new _ _ _ h2, hk]
      obtain ⟨⟨K1, K2⟩, A, L⟩ :=
        recordVariant_spec w rs (n + 1) (alSet st.1 r.chunk_id r, alSet st.2 r.chunk_id [(n, w)]) hk₁
      have hsf : seenFold (alKeys st.1) ((r :: rs).map RetrievalResult.chunk_id) =
          seenFold (alKeys st.1 ++ [r.chunk_id]) (rs.map RetrievalResult.chunk_id) := by
        show seenFold (addSeen (alKeys st.1) r.chunk_id) (rs.map RetrievalResult.chunk_id) = _
        rw [addSeen, if_neg hmem]
      refine ⟨⟨?_, ?_⟩, ?_, ?_⟩
      · rw [hstep, K1, hsf]
        congr 1
        exact alKeys_alSet_new _ _ _ h1
      · rw [hstep, K2, hsf]
        congr 1
        exact alKeys_alSet_new _ _ _ h1
      · intro c
        rw [hstep, A c]
        by_cases hc : r.chunk_id = c
        · subst hc
          rw [alGet_alSet_self, h1]
          simp [List.find?]
        · rw [alGet_alSet_ne _ _ _ _ hc]
          cases h3 : alGet st.1 c
          · simp [List.find?, hc]
          · rfl
      · intro c
        rw [hstep, L c]
        by_cases hc : r.chunk_id = c
        · subst hc
          rw [alGet_alSet_self, h2, variantContrib_cons, if_pos rfl]
          simp
        · rw [alGet_alSet_ne _ _ _ _ hc, variantContrib_cons, if_neg hc, List.nil_append]
          cases h3 : alGet st.2 c
          · simp only [List.map_cons, List.contains_cons]
            have hbeq : (c == r.chunk_id) = false := by
              simp only [beq_eq_false_iff_ne, ne_eq]
              exact fun he => hc he.symm
            rw [hbeq]
            simp
          · rfl
    | some v =>
      have h2 : ∃ L₀, alGet st.2 r.chunk_id = some L₀ := by
        rw [← Option.isSome_iff_exists, alGet_isSome_iff_mem, ← hk, hmem_iff, h1]
        simp
      obtain ⟨L₀, hL₀⟩ := h2
      have hstep : recordVariant w st n (r :: rs) =
          recordVariant w (st.1, alSet st.2 r.chunk_id (L₀ ++ [(n, w)])) (n + 1) rs := by
        simp [recordVariant, recordResult, h1, hL₀]
      have hk₁ : alKeys st.1 = alKeys (alSet st.2 r.chunk_id (L₀ ++ [(n, w)])) := by
        rw [alKeys_alSet_mem _ _ _ (by simp [hL₀]), hk]
      obtain ⟨⟨K1, K2⟩, A, L⟩ :=
        recordVariant_spec w rs (n + 1) (st.1, alSet st.2 r.chunk_id (L₀ ++ [(n, w)])) hk₁
      have hmem' : r.chunk_id ∈ alKeys st.1 := by
        rw [hmem_iff, h1]
        simp
      have hsf : seenFold (alKeys st.1) ((r :: rs).map RetrievalResult.chunk_id) =
          seenFold (alKeys st.1) (rs.map RetrievalResult.chunk_id) := by
        show seenFold (addSeen (alKeys st.1) r.chunk_id) (rs.map RetrievalResult.chunk_id) = _
        rw [addSeen, if_pos hmem']
      refine ⟨⟨?_, ?_⟩, ?_, ?_⟩
      · rw [hstep, K1, hsf]
      · rw [hstep, K2, hsf]
      · intro c
        rw [hstep, A c]
        cases h3 : alGet st.1 c
        · have hc : r.chunk_id ≠ c := fun he => by rw [he, h3] at h1; cases h1
          simp [List.find?, hc]
        · rfl
      · intro c
        rw [hstep, L c]
        by_cases hc : r.chunk_id = c
        · subst hc
          rw [alGet_alSet_self, hL₀, variantContrib_cons, if_pos rfl]
          simp
        · rw [alGet_alSet_ne _ _ _ _ hc, variantContrib_cons, if_neg hc, List.nil_append]
          cases h3 : alGet st.2 c
          · simp only [List.map_cons, List.contains_cons]
            have hbeq : (c == r.chunk_id) = false := by
              simp only [beq_eq_false_iff_ne, ne_eq]
              exact fun he => hc he.symm
            rw [hbeq]
            simp
          · rfl

theorem successLists_cons_none (w : ℚ) (ss : List (ℚ × Option (List RetrievalResult))) :
    successLists ((w, none) :: ss) = successLists ss := by
  simp [successLists]

theorem successLists_cons_some (w : ℚ) (rs : List RetrievalResult)
    (ss : List (ℚ × Option (List RetrievalResult))) :
    successLists ((w, some rs) :: ss) = (w, rs) :: successLists ss := by
  simp [successLists]

theorem allChunkIds_cons_none (w : ℚ) (ss : List (ℚ × Option (List RetrievalResult))) :
    allChunkIds ((w, none) :: ss) = allChunkIds ss := by
  simp [allChunkIds, successLists_cons_none]

theorem allChunkIds_cons_some (w : ℚ) (rs : List RetrievalResult)
    (ss : List (ℚ × Option (List RetrievalResult))) :
    allChunkIds ((w, some rs) :: ss) =
      rs.map RetrievalResult.chunk_id ++ allChunkIds ss := by
  simp [allChunkIds, successLists_cons_some]

theorem specRankList_cons_none (w : ℚ) (ss : List (ℚ × Option (List RetrievalResult)))
    (c : String) : specRankList ((w, none) :: ss) c = specRankList ss c := by
  simp [specRankList, successLists_cons_none]

theorem specRankList_cons_some (w : ℚ) (rs : List RetrievalResult)
    (ss : List (ℚ × Option (List RetrievalResult))) (c : String) :
    specRankList ((w, some rs) :: ss) c =
      variantContrib w 0 rs c ++ specRankList ss c := by
  simp only [specRankList, successLists_cons_some, List.flatMap_cons]
  rfl

theorem collect_spec :
    ∀ (searches : List (ℚ × Option (List RetrievalResult))) (st : FusionState),
      alKeys st.1 = alKeys st.2 →
      (alKeys (searches.foldl fusionStep st).1 =
          seenFold (alKeys st.1) (allChunkIds searches) ∧
        alKeys (searches.foldl fusionStep st).2 =
          seenFold (alKeys st.1) (allChunkIds searches)) ∧
      (∀ c, alGet (searches.foldl fusionStep st).1 c =
        match alGet st.1 c with
        | some v => some v
        | none =>
          ((successLists searches).flatMap Prod.snd).find? (fun r => decide (r.chunk_id = c))) ∧
      (∀ c, alGet (searches.foldl fusionStep st).2 c =
        match alGet st.2 c with
        | some L => some (L ++ specRankList searches c)
        | none =>
          if (allChunkIds searches).contains c then some (specRankList searches c) else none)
  | [], st, hk => by
    refine ⟨⟨rfl, hk.symm⟩, ?_, ?_⟩
    · intro c
      cases h : alGet st.1 c <;> simp [successLists, h]
    · intro c
      cases h : alGet st.2 c <;> simp [specRankList, successLists, allChunkIds, h]
  | (w, o) :: ss, st, hk => by
    cases o with
    | none =>
      have hstep : (((w, none) :: ss).foldl fusionStep st) = ss.foldl fusionStep st := by
        simp [fusionStep]
      obtain ⟨hks, hA, hL⟩ := collect_spec ss st hk
      rw [hstep, allChunkIds_cons_none, successLists_cons_none]
      refine ⟨hks, hA, ?_⟩
      intro c
      rw [hL c]
      cases h : alGet st.2 c
      · rw [specRankList_cons_none]
      · rw [specRankList_cons_none]
    | some rs =>
      have hstep : (((w, some rs) :: ss).foldl fusionStep st) =
          ss.foldl fusionStep (recordVariant w st 0 rs) := by
        simp [fusionStep]
      obtain ⟨⟨K1, K2⟩, A1, L1⟩ := recordVariant_spec w rs 0 st hk
      have hk₁ : alKeys (recordVariant w st 0 rs).1 = alKeys (recordVariant w st 0 rs).2 :=
        K1.trans K2.symm
      obtain ⟨⟨K1', K2'⟩, A2, L2⟩ := collect_spec ss (recordVariant w st 0 rs) hk₁
      have hflat : (successLists ((w, some rs) :: ss)).flatMap Prod.snd =
          rs ++ (successLists ss).flatMap Prod.snd := by
        rw [successLists_cons_some]
        simp
      refine ⟨⟨?_, ?_⟩, ?_, ?_⟩
      · rw [hstep, K1', K1, allChunkIds_cons_some, seenFold_append]
      · rw [hstep, K2', K1, allChunkIds_cons_some, seenFold_append]
      · intro c
        rw [hstep, A2 c, A1 c, hflat]
        cases h : alGet st.1 c
        · rw [List.find?_append]
          cases hf : rs.find? (fun r => decide (r.chunk_id = c)) <;> simp [hf]
        · rfl
      · intro c
        rw [hstep, L2 c, L1 c]
        cases h : alGet st.2 c
        · by_cases hin : c ∈ rs.map RetrievalResult.chunk_id
          · have hcont : (rs.map RetrievalResult.chunk_id).contains c = true := by
              simp [List.contains, hin]
            rw [hcont]
            have hcont2 : (allChunkIds ((w, some rs) :: ss)).contains c = true := by
              rw [allChunkIds_cons_some]
              simp [List.contains, hin]
            rw [hcont2]
            simp only [if_true, specRankList_cons_some]
          · have hcont : (rs.map RetrievalResult.chunk_id).contains c = false := by
              simp [List.contains, hin]
            rw [hcont]
            have hnil : variantContrib w 0 rs c = [] := variantContrib_nil w rs 0 c hin
            have hcont2 : (allChunkIds ((w, some rs) :: ss)).contains c =
                (allChunkIds ss).contains c := by
              rw [allChunkIds_cons_some]
              simp [List.contains, hin]
            rw [specRankList_cons_some, hnil, List.nil_append, hcont2]
            simp
        · dsimp only
          rw [specRankList_cons_some, List.append_assoc]

theorem collectResults_keys (searches : List (ℚ × Option (List RetrievalResult))) :
    alKeys (collectResults searches).1 = seenIds searches ∧
    alKeys (collectResults searches).2 = seenIds searches := by
  have h := (collect_spec searches ([], []) rfl).1
  simpa [collectResults, seenIds, alKeys] using h

theorem collectResults_get_all (searches : List (ℚ × Option (List RetrievalResult)))
    (c : String) : alGet (collectResults searches).1 c = firstResult searches c := by
  have h := (collect_spec searches ([], []) rfl).2.1 c
  simpa [collectResults, firstResult, alGet] using h

theorem collectResults_get_ranks (searches : List (ℚ × Option (List RetrievalResult)))
    (c : String) :
    alGet (collectResults searches).2 c =
      if (allChunkIds searches).contains c then some (specRankList searches c) else none := by
  have h := (collect_spec searches ([], []) rfl).2.2 c
  simpa [collectResults, alGet] using h

theorem seenIds_nodup (searches : List (ℚ × Option (List RetrievalResult))) :
    (seenIds searches).Nodup :=
  seenFold_nodup _ [] (by simp)

theorem collectResults_ranks_eq (searches : List (ℚ × Option (List RetrievalResult))) :
    (collectResults searches).2 =
      (seenIds searches).map (fun c => (c, specRankList searches c)) := by
  apply alExt _ _ _ (collectResults_keys searches).2 (seenIds_nodup searches)
  intro c hc
  rw [collectResults_get_ranks]
  have hmem : c ∈ allChunkIds searches := by
    have := (mem_seenFold c (allChunkIds searches) []).mp hc
    simpa using this
  have hcont : (allChunkIds searches).contains c = true := by simp [List.contains, hmem]
  rw [hcont]
  simp

theorem fusionScoresOf_eq (rrf_k : ℚ) (searches : List (ℚ × Option (List RetrievalResult))) :
    fusionScoresOf rrf_k searches =
      (seenIds searches).map (fun c => (c, rrfSpecScore rrf_k searches c)) := by
  unfold fusionScoresOf
  rw [collectResults_ranks_eq, List.map_map]
  rfl

theorem fusionRetrieve_eq_spec (rrf_k : ℚ) (top_k : ℕ)
    (searches : List (ℚ × Option (List RetrievalResult))) :
    fusionRetrieve rrf_k top_k searches = rrfFusionSpec rrf_k top_k searches := by
  simp only [fusionRetrieve, rrfFusionSpec]
  by_cases he : (collectResults searches).1.isEmpty
  · rw [if_pos he]
    have hk := (collectResults_keys searches).1
    have hnil : seenIds searches = [] := by
      rw [← hk]
      rcases hl : (collectResults searches).1 with _ | ⟨p, l⟩
      · rfl
      · rw [hl] at he
        simp [List.isEmpty] at he
    rw [hnil]
    simp
  · rw [if_neg he, ← fusionScoresOf_eq]
    have hfun : (fun p : String × ℚ => alGet (collectResults searches).1 p.1) =
        (fun p : String × ℚ => firstResult searches p.1) := by
      funext p
      exact collectResults_get_all searches p.1
    rw [hfun]

theorem filterMap_map_sublist {α β γ : Type} (f : α → Option β) (g : β → γ) (h : α → γ) :
    ∀ (l : List α), (∀ a ∈ l, ∀ b, f a = some b → g b = h a) →
      ((l.filterMap f).map g).Sublist (l.map h)
  | [], _ => by simp
  | a :: l, hh => by
    rw [List.filterMap_cons]
    cases hf : f a with
    | none =>
      rw [List.map_cons]
      exact List.Sublist.cons _
        (filterMap_map_sublist f g h l (fun x hx => hh x (List.mem_cons_of_mem _ hx)))
    | some b =>
      rw [List.map_cons, List.map_cons, hh a (List.mem_cons_self _ _) b hf]
      exact List.Sublist.cons₂ _
        (filterMap_map_sublist f g h l (fun x hx => hh x (List.mem_cons_of_mem _ hx)))

theorem fusionRetrieve_nodup (rrf_k : ℚ) (top_k : ℕ)
    (searches : List (ℚ × Option (List RetrievalResult))) :
    ((fusionRetrieve rrf_k top_k searches).map RetrievalResult.chunk_id).Nodup := by
  rw [fusionRetrieve_eq_spec]
  unfold rrfFusionSpec
  have hsub := filterMap_map_sublist (fun p : String × ℚ => firstResult searches p.1)
    RetrievalResult.chunk_id Prod.fst
    ((((seenIds searches).map (fun c => (c, rrfSpecScore rrf_k searches c))).mergeSort
        byScoreDesc).take top_k)
    (by
      intro p hp r hr
      have := List.find?_some hr
      simpa using this)
  apply hsub.nodup
  rw [List.map_take]
  apply List.Sublist.nodup (List.take_sublist _ _)
  have hperm : ((((seenIds searches).map
      (fun c => (c, rrfSpecScore rrf_k searches c))).mergeSort byScoreDesc).map Prod.fst).Perm
      (seenIds searches) := by
    have h1 := List.mergeSort_perm
      ((seenIds searches).map (fun c => (c, rrfSpecScore rrf_k searches c))) byScoreDesc
    have h2 := h1.map Prod.fst
    simpa [List.map_map, Function.comp_def] using h2
  exact hperm.nodup_iff.mpr (seenIds_nodup searches)

theorem specRankList_nil (c : String) : specRankList [] c = [] := rfl

theorem variantContrib_base (w : ℚ) (n : ℕ) (c : String) : variantContrib w n [] c = [] := rfl

theorem pairwise_filterMap_of {α β : Type} {R : α → α → Prop} {S' : β → β → Prop}
    (f : α → Option β) :
    ∀ (l : List α),
      (∀ a ∈ l, ∀ a' ∈ l, ∀ b b', f a = some b → f a' = some b' → R a a' → S' b b') →
      l.Pairwise R → (l.filterMap f).Pairwise S'
  | [], _, _ => by simp
  | a :: l, himp, hpw => by
    rw [List.filterMap_cons]
    obtain ⟨hhead, htail⟩ := List.pairwise_cons.mp hpw
    have hrec := pairwise_filterMap_of f l
      (fun x hx y hy => himp x (List.mem_cons_of_mem _ hx) y (List.mem_cons_of_mem _ hy)) htail
    cases hf : f a with
    | none => exact hrec
    | some b =>
      rw [List.pairwise_cons]
      refine ⟨?_, hrec⟩
      intro b' hb'
      obtain ⟨a', ha', hfa'⟩ := List.mem_filterMap.mp hb'
      exact himp a (List.mem_cons_self _ _) a' (List.mem_cons_of_mem _ ha') b b' hf hfa'
        (hhead a' ha')

theorem fusionRetrieve_sorted (rrf_k : ℚ) (top_k : ℕ)
    (searches : List (ℚ × Option (List RetrievalResult))) :
    (fusionRetrieve rrf_k top_k searches).Pairwise
      (fun a b => rrfSpecScore rrf_k searches b.chunk_id ≤
        rrfSpecScore rrf_k searches a.chunk_id) := by
  rw [fusionRetrieve_eq_spec]
  unfold rrfFusionSpec
  have hsorted : (((seenIds searches).map
      (fun c => (c, rrfSpecScore rrf_k searches c))).mergeSort byScoreDesc).Pairwise
      (fun p q => byScoreDesc p q) := by
    apply List.sorted_mergeSort
    · intro a b c hab hbc
      simp only [byScoreDesc, decide_eq_true_eq] at *
      exact le_trans hbc hab
    · intro a b
      simp only [byScoreDesc]
      rcases le_total b.2 a.2 with h | h <;> simp [h]
  have htake := hsorted.sublist (List.take_sublist top_k _)
  apply pairwise_filterMap_of _ _ _ htake
  intro p hp p' hp' b b' hb hb' hR
  have hpS := List.mem_mergeSort.mp (List.mem_of_mem_take hp)
  have hp'S := List.mem_mergeSort.mp (List.mem_of_mem_take hp')
  obtain ⟨c, hc, rfl⟩ := List.mem_map.mp hpS
  obtain ⟨c', hc', rfl⟩ := List.mem_map.mp hp'S
  have hb1 : b.chunk_id = c := by
    have := List.find?_some hb
    simpa using this
  have hb2 : b'.chunk_id = c' := by
    have := List.find?_some hb'
    simpa using this
  simp only [byScoreDesc, decide_eq_true_eq] at hR
  rw [hb1, hb2]
  simpa using hR

/-! ## C1: Reciprocal Rank Fusion -/

set_option maxRecDepth 40000 in
/-- C1: Reciprocal Rank Fusion in rewrite mode. (a) The fusion-score dict
assigns each distinct chunk id, in first-seen order, the sum of
`weight / (rrf_k + rank)` over every (variant, 0-based rank) at which it
appears; (b) `retrieve` equals the declarative pipeline that stable-sorts
those scored ids descending (ties keeping first-seen order, by stability of
the sort over the first-seen-ordered list) and returns the top-k prefix of
first-seen results; (c) the output is sorted by descending RRF score; (d) in
the concrete scenario (variant A returns [x,y,z] with weight 1.0, variant B
returns [y,x,w] with weight 0.8, rrf_k = 60) x ranks first, y second, and z
and w follow on their single-list contributions. -/
theorem rrf_fusion_correct :
    (∀ (rrf_k : ℚ) (searches : List (ℚ × Option (List RetrievalResult))),
      fusionScoresOf rrf_k searches =
        (seenIds searches).map (fun c => (c, rrfSpecScore rrf_k searches c))) ∧
    (∀ (rrf_k : ℚ) (top_k : ℕ) (searches : List (ℚ × Option (List RetrievalResult))),
      fusionRetrieve rrf_k top_k searches = rrfFusionSpec rrf_k top_k searches) ∧
    (∀ (rrf_k : ℚ) (top_k : ℕ) (searches : List (ℚ × Option (List RetrievalResult))),
      (fusionRetrieve rrf_k top_k searches).Pairwise
        (fun a b => rrfSpecScore rrf_k searches b.chunk_id ≤
          rrfSpecScore rrf_k searches a.chunk_id)) ∧
    (fusionRetrieve 60 10 c1Searches).map RetrievalResult.chunk_id = ["x", "y", "z", "w"] := by
  refine ⟨fusionScoresOf_eq, fusionRetrieve_eq_spec, fusionRetrieve_sorted, ?_⟩
  rw [fusionRetrieve_eq_spec]
  unfold rrfFusionSpec
  rw [show seenIds c1Searches = ["x", "y", "z", "w"] from by decide]
  have hx : rrfSpecScore 60 c1Searches "x" = 109/3660 := by
    simp [rrfSpecScore, c1Searches, specRankList_cons_some, specRankList_nil,
      variantContrib_cons, variantContrib_base, c1x, c1y, c1z, c1w]
    norm_num
  have hy : rrfSpecScore 60 c1Searches "y" = 136/4575 := by
    simp [rrfSpecScore, c1Searches, specRankList_cons_some, specRankList_nil,
      variantContrib_cons, variantContrib_base, c1x, c1y, c1z, c1w]
    norm_num
  have hz : rrfSpecScore 60 c1Searches "z" = 1/62 := by
    simp [rrfSpecScore, c1Searches, specRankList_cons_some, specRankList_nil,
      variantContrib_cons, variantContrib_base, c1x, c1y, c1z, c1w]
    norm_num
  have hw : rrfSpecScore 60 c1Searches "w" = 2/155 := by
    simp [rrfSpecScore, c1Searches, specRankList_cons_some, specRankList_nil,
      variantContrib_cons, variantContrib_base, c1x, c1y, c1z, c1w]
    norm_num
  simp only [List.map_cons, List.map_nil, hx, hy, hz, hw]
  rw [List.mergeSort_of_sorted (by
    simp only [byScoreDesc, List.pairwise_cons, List.mem_cons, List.mem_singleton]
    norm_num)]
  rw [List.take_of_length_le (by norm_num)]
  rw [List.filterMap_cons, List.filterMap_cons, List.filterMap_cons, List.filterMap_cons]
  simp only [show firstResult c1Searches "x" = some c1x from by decide,
    show firstResult c1Searches "y" = some c1y from by decide,
    show firstResult c1Searches "z" = some c1z from by decide,
    show firstResult c1Searches "w" = some c1w from by decide]
  simp [c1x, c1y, c1z, c1w]

/-! ## C3: priority-weighted deduplication -/

/-- Helper: unfolding the two-element deduplication. -/
theorem mergeAndDeduplicate_two (f s : RetrievalResult) (h : s.chunk_id = f.chunk_id) :
    mergeAndDeduplicate [f, s] =
      if s.distance < f.distance ∨
          (pyAbs (s.distance - f.distance) < 1/20 ∧
            s.sub_query_priority < f.sub_query_priority) then [s] else [f] := by
  unfold mergeAndDeduplicate
  simp only [List.foldl_cons, List.foldl_nil]
  have h1 : dedupStep [] f = [(f.chunk_id, f)] := by simp [dedupStep, alGet, alSet]
  rw [h1]
  unfold dedupStep
  rw [show alGet [(f.chunk_id, f)] s.chunk_id = some f by simp [alGet, h]]
  dsimp only
  have hset : alSet [(f.chunk_id, f)] s.chunk_id s = [(s.chunk_id, s)] := by
    simp [alSet, h]
  by_cases hd : s.distance < f.distance
  · rw [if_pos hd, if_pos (Or.inl hd), hset]
    simp
  · rw [if_neg hd]
    by_cases hp : pyAbs (s.distance - f.distance) < 1/20 ∧
        s.sub_query_priority < f.sub_query_priority
    · rw [if_pos hp, if_pos (Or.inr hp), hset]
      simp
    · rw [if_neg hp, if_neg (by rintro (h' | h') <;> [exact hd h'; exact hp h'])]
      simp

theorem alGet_mem {α : Type} :
    ∀ {l : List (String × α)} {k : String} {v : α}, alGet l k = some v → (k, v) ∈ l
  | [], k, v, h => by simp [alGet] at h
  | (k', v') :: l, k, v, h => by
    by_cases h0 : k' = k
    · rw [alGet, if_pos h0] at h
      subst h0
      cases h
      exact List.mem_cons_self _ _
    · rw [alGet, if_neg h0] at h
      exact List.mem_cons_of_mem _ (alGet_mem h)

theorem dedupStep_wf (seen : List (String × RetrievalResult)) (r : RetrievalResult)
    (h : (alKeys seen).Nodup ∧ ∀ p ∈ seen, p.2.chunk_id = p.1) :
    (alKeys (dedupStep seen r)).Nodup ∧ ∀ p ∈ dedupStep seen r, p.2.chunk_id = p.1 := by
  have hset : ∀ hs : (alGet seen r.chunk_id).isSome,
      (alKeys (alSet seen r.chunk_id r)).Nodup ∧
        ∀ p ∈ alSet seen r.chunk_id r, p.2.chunk_id = p.1 := by
    intro hs
    refine ⟨by rw [alKeys_alSet_mem _ _ _ hs]; exact h.1, ?_⟩
    intro p hp
    rcases mem_alSet hp with rfl | hp'
    · rfl
    · exact h.2 p hp'
  unfold dedupStep
  cases hg : alGet seen r.chunk_id with
  | some existing =>
    have hs : (alGet seen r.chunk_id).isSome := by simp [hg]
    dsimp only
    split
    · exact hset hs
    · split
      · exact hset hs
      · exact h
  | none =>
    have hmem : r.chunk_id ∉ alKeys seen := by
      rw [← alGet_isSome_iff_mem, hg]
      simp
    dsimp only
    refine ⟨?_, ?_⟩
    · rw [alKeys_alSet_new _ _ _ hg]
      simp [List.nodup_append, h.1, hmem]
    · intro p hp
      rcases mem_alSet hp with rfl | hp'
      · rfl
      · exact h.2 p hp'

theorem dedupFold_wf :
    ∀ (results : List RetrievalResult) (seen : List (String × RetrievalResult)),
      ((alKeys seen).Nodup ∧ ∀ p ∈ seen, p.2.chunk_id = p.1) →
      ((alKeys (results.foldl dedupStep seen)).Nodup ∧
        ∀ p ∈ results.foldl dedupStep seen, p.2.chunk_id = p.1)
  | [], seen, h => h
  | r :: results, seen, h =>
    dedupFold_wf results (dedupStep seen r) (dedupStep_wf seen r h)

/-- The deduplicated list has pairwise-distinct chunk ids. -/
theorem mergeAndDeduplicate_nodup (results : List RetrievalResult) :
    ((mergeAndDeduplicate results).map RetrievalResult.chunk_id).Nodup := by
  obtain ⟨h1, h2⟩ := dedupFold_wf results [] ⟨List.nodup_nil, by simp⟩
  unfold mergeAndDeduplicate
  rw [List.map_map]
  have : (results.foldl dedupStep []).map (RetrievalResult.chunk_id ∘ Prod.snd) =
      (results.foldl dedupStep []).map Prod.fst :=
    List.map_congr_left (fun p hp => h2 p hp)
  rw [this]
  exact h1

theorem dropFold_wf :
    ∀ (l : List RetrievalResult) (acc : List String × List RetrievalResult),
      acc.1 = acc.2.map RetrievalResult.chunk_id → acc.1.Nodup →
      ((l.foldl dropStep acc).1 = (l.foldl dropStep acc).2.map RetrievalResult.chunk_id ∧
        (l.foldl dropStep acc).1.Nodup)
  | [], acc, h1, h2 => ⟨h1, h2⟩
  | r :: l, acc, h1, h2 => by
    rw [List.foldl_cons]
    by_cases hm : r.chunk_id ∈ acc.1
    · rw [show dropStep acc r = acc from by simp [dropStep, hm]]
      exact dropFold_wf l acc h1 h2
    · rw [show dropStep acc r = (acc.1 ++ [r.chunk_id], acc.2 ++ [r]) from by
        simp [dropStep, hm]]
      exact dropFold_wf l _ (by simp [h1]) (by simp [List.nodup_append, h2, hm])

/-- The residual-duplicate pass always yields pairwise-distinct chunk ids. -/
theorem dropDupIds_nodup (l : List RetrievalResult) :
    ((dropDupIds l).map RetrievalResult.chunk_id).Nodup := by
  obtain ⟨h1, h2⟩ := dropFold_wf l ([], []) rfl List.nodup_nil
  rw [dropDupIds, ← h1]
  exact h2

theorem dropFold_out_append :
    ∀ (l : List RetrievalResult) (acc : List String × List RetrievalResult),
      ∃ t, (l.foldl dropStep acc).2 = acc.2 ++ t
  | [], acc => ⟨[], by simp⟩
  | r :: l, acc => by
    rw [List.foldl_cons]
    by_cases hm : r.chunk_id ∈ acc.1
    · rw [show dropStep acc r = acc from by simp [dropStep, hm]]
      exact dropFold_out_append l acc
    · rw [show dropStep acc r = (acc.1 ++ [r.chunk_id], acc.2 ++ [r]) from by
        simp [dropStep, hm]]
      obtain ⟨t, ht⟩ := dropFold_out_append l (acc.1 ++ [r.chunk_id], acc.2 ++ [r])
      exact ⟨r :: t, by rw [ht]; simp⟩

theorem dropDupIds_cons_cons (x y : RetrievalResult) (t : List RetrievalResult)
    (h : y.chunk_id ≠ x.chunk_id) :
    ∃ t', dropDupIds (x :: y :: t) = x :: y :: t' := by
  unfold dropDupIds
  rw [List.foldl_cons, List.foldl_cons]
  rw [show dropStep ([], []) x = ([x.chunk_id], [x]) from by simp [dropStep]]
  rw [show dropStep ([x.chunk_id], [x]) y = ([x.chunk_id, y.chunk_id], [x, y]) from by
    simp [dropStep, h]]
  obtain ⟨t', ht⟩ := dropFold_out_append t ([x.chunk_id, y.chunk_id], [x, y])
  exact ⟨t', by rw [ht]; rfl⟩

theorem groupFold_wf :
    ∀ (l : List RetrievalResult) (acc : List (String × List RetrievalResult)),
      (alKeys acc).Nodup →
      (∀ p ∈ acc, ∀ r ∈ p.2, r.sub_query_intent = p.1) →
      ((alKeys (l.foldl groupStep acc)).Nodup ∧
        ∀ p ∈ l.foldl groupStep acc, ∀ r ∈ p.2, r.sub_query_intent = p.1)
  | [], acc, hk, hv => ⟨hk, hv⟩
  | r :: l, acc, hk, hv => by
    rw [List.foldl_cons]
    apply groupFold_wf l
    · unfold groupStep
      cases hg : alGet acc r.sub_query_intent with
      | some g => rw [alKeys_alSet_mem _ _ _ (by simp [hg])]; exact hk
      | none =>
        rw [alKeys_alSet_new _ _ _ hg]
        have : r.sub_query_intent ∉ alKeys acc := by
          rw [← alGet_isSome_iff_mem, hg]; simp
        simp [List.nodup_append, hk, this]
    · unfold groupStep
      cases hg : alGet acc r.sub_query_intent with
      | some g =>
        intro p hp
        rcases mem_alSet hp with rfl | hp'
        · intro x hx
          rcases List.mem_append.mp hx with hx | hx
          · exact hv _ (alGet_mem hg) x hx
          · rw [List.mem_singleton.mp hx]
        · exact hv p hp'
      | none =>
        intro p hp
        rcases mem_alSet hp with rfl | hp'
        · intro x hx
          rw [List.mem_singleton.mp hx]
        · exact hv p hp'

theorem groupFold_sublist :
    ∀ (l : List RetrievalResult) (acc : List (String × List RetrievalResult))
      (pre : List RetrievalResult),
      (∀ p ∈ acc, p.2.Sublist pre) →
      ∀ p ∈ l.foldl groupStep acc, p.2.Sublist (pre ++ l)
  | [], acc, pre, h => by simpa using h
  | r :: l, acc, pre, h => by
    rw [List.foldl_cons]
    have hstep : ∀ p ∈ groupStep acc r, p.2.Sublist (pre ++ [r]) := by
      unfold groupStep
      cases hg : alGet acc r.sub_query_intent with
      | some g =>
        intro p hp
        rcases mem_alSet hp with rfl | hp'
        · exact (h _ (alGet_mem hg)).append (List.Sublist.refl [r])
        · exact (h p hp').trans (List.sublist_append_left _ _)
      | none =>
        intro p hp
        rcases mem_alSet hp with rfl | hp'
        · exact List.sublist_append_right pre [r]
        · exact (h p hp').trans (List.sublist_append_left _ _)
    have := groupFold_sublist l (groupStep acc r) (pre ++ [r]) hstep
    simpa using this

theorem tagResults_map_chunk_id (sq : SubQuery) (rs : List RetrievalResult) :
    (tagResults sq rs).map RetrievalResult.chunk_id = rs.map RetrievalResult.chunk_id := by
  simp [tagResults, List.map_map]

/-- Diversity reordering keeps chunk ids pairwise distinct when the input's
are (and in the multi-group branch even unconditionally). -/
theorem diversity_nodup (results : List RetrievalResult)
    (hn : (results.map RetrievalResult.chunk_id).Nodup) :
    ((sortByRelevanceAndDiversity results).map RetrievalResult.chunk_id).Nodup := by
  unfold sortByRelevanceAndDiversity
  rcases hg : groupByIntent results with _ | ⟨⟨k, g⟩, rest⟩
  · simp [dropDupIds]
  · rcases rest with _ | ⟨q, rest2⟩
    · dsimp only [List.map_cons, List.map_nil]
      have hsub : g.Sublist results := by
        have hall := groupFold_sublist results [] [] (by simp)
        have hmem : (k, g) ∈ groupByIntent results := by
          rw [hg]
          exact List.mem_cons_self _ _
        simpa using hall (k, g) hmem
      have hperm : ((g.mergeSort byDistanceAsc).map RetrievalResult.chunk_id).Perm
          (g.map RetrievalResult.chunk_id) := (List.mergeSort_perm g byDistanceAsc).map _
      exact hperm.nodup_iff.mpr ((hsub.map RetrievalResult.chunk_id).nodup hn)
    · dsimp only [List.map_cons]
      exact dropDupIds_nodup _

theorem multiQueryRetrieve_nodup (max_subqueries top_k : ℕ)
    (sub_searches : List (SubQuery × Option (List RetrievalResult)))
    (hout : ∀ p ∈ sub_searches, ∀ rs, p.2 = some rs →
      (rs.map RetrievalResult.chunk_id).Nodup) :
    ∀ out, multiQueryRetrieve max_subqueries top_k sub_searches = some out →
      (out.map RetrievalResult.chunk_id).Nodup := by
  intro out hret
  simp only [multiQueryRetrieve] at hret
  rcases hsubs : sub_searches.take max_subqueries with _ | ⟨⟨sq, o⟩, rest⟩
  · rw [hsubs] at hret
    dsimp only at hret
    simp only [List.foldl_nil, List.isEmpty_nil, if_true] at hret
    obtain rfl := Option.some.inj hret
    simp
  · rcases rest with _ | ⟨p2, rest2⟩
    · rw [hsubs] at hret
      dsimp only at hret
      cases ho : o with
      | none =>
        rw [ho] at hret
        cases hret
      | some rs =>
        rw [ho] at hret
        obtain rfl := Option.some.inj hret
        rw [tagResults_map_chunk_id]
        have hmem : (sq, o) ∈ sub_searches :=
          List.mem_of_mem_take (hsubs ▸ List.mem_cons_self _ _)
        exact hout _ hmem rs ho
    · rw [hsubs] at hret
      dsimp only at hret
      by_cases he : (((sq, o) :: p2 :: rest2).foldl subSearchStep []).isEmpty
      · rw [if_pos he] at hret
        obtain rfl := Option.some.inj hret
        simp
      · rw [if_neg he] at hret
        obtain rfl := Option.some.inj hret
        rw [List.map_take]
        exact (List.take_sublist _ _).nodup
          (diversity_nodup _ (mergeAndDeduplicate_nodup _))

/-! ## C2: deduplication invariant -/

/-- C2: no chunk id appears twice in any fused output: the RRF-fused output
of `QueryFusionRetriever.retrieve` has pairwise-distinct chunk ids, and so
does every list returned by `MultiQueryRetriever.retrieve` (given that each
individual index search returns distinct chunk ids, which the data model
guarantees — the single-sub-query path passes one search's list through
unchanged). -/
theorem fused_outputs_nodup :
    (∀ (rrf_k : ℚ) (top_k : ℕ) (searches : List (ℚ × Option (List RetrievalResult))),
      ((fusionRetrieve rrf_k top_k searches).map RetrievalResult.chunk_id).Nodup) ∧
    (∀ (max_subqueries top_k : ℕ)
      (sub_searches : List (SubQuery × Option (List RetrievalResult))),
      (∀ p ∈ sub_searches, ∀ rs, p.2 = some rs →
        (rs.map RetrievalResult.chunk_id).Nodup) →
      ∀ out, multiQueryRetrieve max_subqueries top_k sub_searches = some out →
        (out.map RetrievalResult.chunk_id).Nodup) :=
  ⟨fusionRetrieve_nodup, multiQueryRetrieve_nodup⟩

/-- C2 (witness): the dedup invariant applied to a concrete single-sub-query
retrieve returning chunks x and y. -/
theorem fused_outputs_nodup_witness :
    ((tagResults c7Sub [c1x, c1y]).map RetrievalResult.chunk_id).Nodup :=
  fused_outputs_nodup.2 4 10 c2Subs
    (by
      intro p hp rs hrs
      simp only [c2Subs, List.mem_singleton] at hp
      subst hp
      simp only at hrs
      obtain rfl := Option.some.inj hrs
      simp [c1x, c1y])
    (tagResults c7Sub [c1x, c1y])
    (by simp [multiQueryRetrieve, c2Subs])

/-! ## C7: fan-out failure isolation -/

theorem fusionFold_filter :
    ∀ (searches : List (ℚ × Option (List RetrievalResult))) (st : FusionState),
      searches.foldl fusionStep st =
        (searches.filter (fun vs => vs.2.isSome)).foldl fusionStep st
  | [], _ => rfl
  | (w, o) :: ss, st => by
    cases o with
    | none => simp [List.filter_cons, fusionStep, fusionFold_filter ss st]
    | some rs => simp [List.filter_cons, fusionStep, fusionFold_filter ss]

theorem collectResults_filter (searches : List (ℚ × Option (List RetrievalResult))) :
    collectResults searches = collectResults (searches.filter (fun vs => vs.2.isSome)) :=
  fusionFold_filter searches ([], [])

theorem fusionRetrieve_filter (rrf_k : ℚ) (top_k : ℕ)
    (searches : List (ℚ × Option (List RetrievalResult))) :
    fusionRetrieve rrf_k top_k searches =
      fusionRetrieve rrf_k top_k (searches.filter (fun vs => vs.2.isSome)) := by
  simp only [fusionRetrieve, fusionScoresOf, collectResults_filter searches]

theorem fusionRetrieve_all_failed (rrf_k : ℚ) (top_k : ℕ)
    (searches : List (ℚ × Option (List RetrievalResult)))
    (h : ∀ vs ∈ searches, vs.2 = none) : fusionRetrieve rrf_k top_k searches = [] := by
  rw [fusionRetrieve_filter]
  have hnil : searches.filter (fun vs => vs.2.isSome) = [] := by
    rw [List.filter_eq_nil_iff]
    intro a ha
    simp [h a ha]
  rw [hnil]
  rfl

theorem subFold_default :
    ∀ (l : List (SubQuery × Option (List RetrievalResult))) (acc : List RetrievalResult),
      l.foldl subSearchStep acc =
        (l.map (fun p => (p.1, some (p.2.getD [])))).foldl subSearchStep acc
  | [], _ => rfl
  | p :: l, acc => by
    cases hp : p.2 with
    | none => simp [subSearchStep, tagResults, hp, subFold_default l acc]
    | some rs => simp [subSearchStep, hp, subFold_default l]

theorem subFold_all_none :
    ∀ (l : List (SubQuery × Option (List RetrievalResult))) (acc : List RetrievalResult),
      (∀ p ∈ l, p.2 = none) → l.foldl subSearchStep acc = acc
  | [], _, _ => rfl
  | p :: l, acc, h => by
    rw [List.foldl_cons, show subSearchStep acc p = acc from by
      simp [subSearchStep, h p (List.mem_cons_self _ _)]]
    exact subFold_all_none l acc (fun q hq => h q (List.mem_cons_of_mem _ hq))

theorem multiQueryRetrieve_two (max_subqueries top_k : ℕ)
    (subs : List (SubQuery × Option (List RetrievalResult)))
    (h2 : 2 ≤ (subs.take max_subqueries).length) :
    multiQueryRetrieve max_subqueries top_k subs =
      multiQueryRetrieve max_subqueries top_k
        (subs.map (fun p => (p.1, some (p.2.getD [])))) ∧
    (multiQueryRetrieve max_subqueries top_k subs).isSome := by
  obtain ⟨p, q, rest, hshape⟩ :
      ∃ p q rest, subs.take max_subqueries = p :: q :: rest := by
    rcases hs : subs.take max_subqueries with _ | ⟨p, _ | ⟨q, rest⟩⟩
    · rw [hs] at h2; simp at h2
    · rw [hs] at h2; simp at h2
    · exact ⟨p, q, rest, rfl⟩
  have hmap : (subs.map (fun p => (p.1, some (p.2.getD [])))).take max_subqueries =
      (p.1, some (p.2.getD [])) :: (q.1, some (q.2.getD [])) ::
        rest.map (fun p => (p.1, some (p.2.getD []))) := by
    rw [← List.map_take, hshape]
    simp
  constructor
  · simp only [multiQueryRetrieve, hshape, hmap]
    rw [show ((p.1, some (p.2.getD [])) :: (q.1, some (q.2.getD [])) ::
        rest.map (fun p => (p.1, some (p.2.getD [])))) =
        ((p :: q :: rest).map (fun p => (p.1, some (p.2.getD [])))) from by simp]
    rw [← subFold_default]
  · simp only [multiQueryRetrieve, hshape]
    split <;> simp

theorem multiQueryRetrieve_all_failed (max_subqueries top_k : ℕ)
    (subs : List (SubQuery × Option (List RetrievalResult)))
    (h2 : 2 ≤ (subs.take max_subqueries).length)
    (hall : ∀ p ∈ subs.take max_subqueries, p.2 = none) :
    multiQueryRetrieve max_subqueries top_k subs = some [] := by
  obtain ⟨p, q, rest, hshape⟩ :
      ∃ p q rest, subs.take max_subqueries = p :: q :: rest := by
    rcases hs : subs.take max_subqueries with _ | ⟨p, _ | ⟨q, rest⟩⟩
    · rw [hs] at h2; simp at h2
    · rw [hs] at h2; simp at h2
    · exact ⟨p, q, rest, rfl⟩
  rw [hshape] at hall
  simp only [multiQueryRetrieve, hshape]
  rw [subFold_all_none _ _ hall]
  simp

/-- C7 (counterexample): with exactly one sub-query whose search raises,
`MultiQueryRetriever.retrieve` propagates the exception (the single-sub-query
path has no `try`/`except`), instead of returning an empty list. -/
theorem fanout_single_failure_counterexample :
    multiQueryRetrieve 4 10 [(c7Sub, none)] = none ∧
    multiQueryRetrieve 4 10 [(c7Sub, none)] ≠ some [] := by
  constructor
  · simp [multiQueryRetrieve]
  · simp [multiQueryRetrieve]

/-- C7 (amended): failures are isolated in the rewrite-mode fan-out (failed
variants are exactly dropped, and all-failed yields []), and in the
multi-sub-query path of decomposition mode (the result never raises, depends
only on the successful branches, and all-failed yields some []); but when
exactly one sub-query is issued a raised search propagates out of `retrieve`
(see the counterexample). -/
theorem fanout_failure_isolation :
    (∀ (rrf_k : ℚ) (top_k : ℕ) (searches : List (ℚ × Option (List RetrievalResult))),
      fusionRetrieve rrf_k top_k searches =
        fusionRetrieve rrf_k top_k (searches.filter (fun vs => vs.2.isSome))) ∧
    (∀ (rrf_k : ℚ) (top_k : ℕ) (searches : List (ℚ × Option (List RetrievalResult))),
      (∀ vs ∈ searches, vs.2 = none) → fusionRetrieve rrf_k top_k searches = []) ∧
    (∀ (max_subqueries top_k : ℕ)
      (subs : List (SubQuery × Option (List RetrievalResult))),
      2 ≤ (subs.take max_subqueries).length →
      (multiQueryRetrieve max_subqueries top_k subs =
        multiQueryRetrieve max_subqueries top_k
          (subs.map (fun p => (p.1, some (p.2.getD [])))) ∧
      (multiQueryRetrieve max_subqueries top_k subs).isSome)) ∧
    (∀ (max_subqueries top_k : ℕ)
      (subs : List (SubQuery × Option (List RetrievalResult))),
      2 ≤ (subs.take max_subqueries).length →
      (∀ p ∈ subs.take max_subqueries, p.2 = none) →
      multiQueryRetrieve max_subqueries top_k subs = some []) :=
  ⟨fusionRetrieve_filter, fusionRetrieve_all_failed, multiQueryRetrieve_two,
    multiQueryRetrieve_all_failed⟩

/-- C7 (witness): with two sub-queries whose searches both raise, retrieve
returns the empty list rather than raising. -/
theorem fanout_failure_isolation_witness :
    multiQueryRetrieve 4 10 c7Subs = some [] :=
  fanout_failure_isolation.2.2.2 4 10 c7Subs (by decide) (by decide)

/-! ## C4: diversity interleaving -/

theorem mergeSort_pair {α : Type} (le : α → α → Bool) (a b : α) :
    [a, b].mergeSort le = if le a b then [a, b] else [b, a] := by
  simp [List.mergeSort, List.merge]

/-- The two-intent-group branch of `_sort_by_relevance_and_diversity`,
written out. -/
theorem sortByRelevanceAndDiversity_two (results : List RetrievalResult)
    (i1 i2 : String) (g1 g2 : List RetrievalResult)
    (hg : groupByIntent results = [(i1, g1), (i2, g2)]) :
    sortByRelevanceAndDiversity results =
      dropDupIds ((List.range
          (max (max 0 (g1.mergeSort byDistanceAsc).length)
            (g2.mergeSort byDistanceAsc).length)).flatMap
        (fun i => (([i1, i2].mergeSort byLexAsc).filterMap
          (fun intent =>
            (alGet [(i1, g1.mergeSort byDistanceAsc), (i2, g2.mergeSort byDistanceAsc)]
              intent).bind (fun g => g[i]?))))) := by
  unfold sortByRelevanceAndDiversity
  rw [hg]
  rfl

set_option maxHeartbeats 1000000 in
/-- C4: after deduplication the candidates are grouped by sub-query intent,
each group sorted by ascending distance, the groups interleaved round-robin
in lexical intent order, and residual duplicate chunk ids dropped; with two
groups each holding at least 2 candidates (all chunk ids distinct), the top
4 output positions contain at least one candidate from each group. -/
theorem diversity_interleaving (results : List RetrievalResult)
    (i1 i2 : String) (g1 g2 : List RetrievalResult)
    (hg : groupByIntent results = [(i1, g1), (i2, g2)])
    (h1 : 2 ≤ g1.length) (h2 : 2 ≤ g2.length)
    (hnodup : (results.map RetrievalResult.chunk_id).Nodup) :
    (∃ r ∈ (sortByRelevanceAndDiversity results).take 4, r.sub_query_intent = i1) ∧
    (∃ r ∈ (sortByRelevanceAndDiversity results).take 4, r.sub_query_intent = i2) := by
  have hwf := groupFold_wf results [] (by simp [alKeys]) (by simp)
  have hkeys : (alKeys (groupByIntent results)).Nodup := hwf.1
  rw [hg] at hkeys
  have hne : i1 ≠ i2 := by
    intro he
    rw [he] at hkeys
    simp [alKeys] at hkeys
  have hint : ∀ p ∈ groupByIntent results, ∀ r ∈ p.2, r.sub_query_intent = p.1 := hwf.2
  have hint1 : ∀ r ∈ g1, r.sub_query_intent = i1 :=
    fun r hr => hint (i1, g1) (by rw [hg]; exact List.mem_cons_self _ _) r hr
  have hint2 : ∀ r ∈ g2, r.sub_query_intent = i2 :=
    fun r hr => hint (i2, g2) (by rw [hg]; simp) r hr
  have hsuball : ∀ p ∈ groupByIntent results, p.2.Sublist ([] ++ results) :=
    groupFold_sublist results [] [] (by simp)
  have hsub1 : g1.Sublist results := by
    simpa using hsuball (i1, g1) (by rw [hg]; exact List.mem_cons_self _ _)
  have hsub2 : g2.Sublist results := by
    simpa using hsuball (i2, g2) (by rw [hg]; simp)
  set s1 := g1.mergeSort byDistanceAsc with hs1
  set s2 := g2.mergeSort byDistanceAsc with hs2
  obtain ⟨xa, ta, hxa⟩ : ∃ x t, s1 = x :: t := by
    rcases hs : s1 with _ | ⟨x, t⟩
    · exfalso
      have := congrArg List.length hs
      rw [hs1, List.length_mergeSort] at this
      simp only [List.length_nil] at this
      omega
    · exact ⟨x, t, rfl⟩
  obtain ⟨xb, tb, hxb⟩ : ∃ x t, s2 = x :: t := by
    rcases hs : s2 with _ | ⟨x, t⟩
    · exfalso
      have := congrArg List.length hs
      rw [hs2, List.length_mergeSort] at this
      simp only [List.length_nil] at this
      omega
    · exact ⟨x, t, rfl⟩
  have hxa_g : xa ∈ g1 := List.mem_mergeSort.mp (by rw [← hs1, hxa]; exact List.mem_cons_self _ _)
  have hxb_g : xb ∈ g2 := List.mem_mergeSort.mp (by rw [← hs2, hxb]; exact List.mem_cons_self _ _)
  have hxa_int : xa.sub_query_intent = i1 := hint1 xa hxa_g
  have hxb_int : xb.sub_query_intent = i2 := hint2 xb hxb_g
  have hxa_res : xa ∈ results := hsub1.subset hxa_g
  have hxb_res : xb ∈ results := hsub2.subset hxb_g
  have hcid : xa.chunk_id ≠ xb.chunk_id := by
    intro he
    have hxy : xa = xb := List.inj_on_of_nodup_map hnodup hxa_res hxb_res he
    rw [hxy] at hxa_int
    exact hne (hxa_int ▸ hxb_int ▸ rfl)
  have hga : alGet [(i1, s1), (i2, s2)] i1 = some s1 := by simp [alGet]
  have hgb : alGet [(i1, s1), (i2, s2)] i2 = some s2 := by simp [alGet, hne]
  obtain ⟨m, hm⟩ : ∃ m, max (max 0 s1.length) s2.length = m + 1 := by
    have hl1 : 2 ≤ s1.length := by rw [hs1, List.length_mergeSort]; exact h1
    have hpos : 0 < max (max 0 s1.length) s2.length :=
      lt_of_lt_of_le (by omega)
        (le_trans (le_max_right 0 s1.length) (le_max_left _ s2.length))
    exact ⟨max (max 0 s1.length) s2.length - 1, (Nat.succ_pred_eq_of_pos hpos).symm⟩
  rw [sortByRelevanceAndDiversity_two results i1 i2 g1 g2 hg, ← hs1, ← hs2, hm,
    List.range_succ_eq_map, List.flatMap_cons, mergeSort_pair]
  have hget1 : (alGet [(i1, s1), (i2, s2)] i1).bind (fun g => g[(0:ℕ)]?) = some xa := by
    rw [hga, Option.some_bind, hxa]; exact List.getElem?_cons_zero
  have hget2 : (alGet [(i1, s1), (i2, s2)] i2).bind (fun g => g[(0:ℕ)]?) = some xb := by
    rw [hgb, Option.some_bind, hxb]; exact List.getElem?_cons_zero
  rcases hlex : byLexAsc i1 i2 with _ | _
  · rw [if_neg (by simp [hlex])]
    have hb0 : [i2, i1].filterMap
        (fun intent => (alGet [(i1, s1), (i2, s2)] intent).bind (fun g => g[(0:ℕ)]?)) =
        [xb, xa] := by
      simp only [List.filterMap_cons, hget1, hget2, List.filterMap_nil]
    rw [hb0]
    simp only [List.cons_append, List.nil_append]
    obtain ⟨t', ht'⟩ := dropDupIds_cons_cons xb xa _ hcid
    rw [ht']
    rw [show (xb :: xa :: t').take 4 = xb :: xa :: t'.take 2 from rfl]
    exact ⟨⟨xa, by simp, hxa_int⟩, ⟨xb, by simp, hxb_int⟩⟩
  · rw [if_pos (by simp [hlex])]
    have hb0 : [i1, i2].filterMap
        (fun intent => (alGet [(i1, s1), (i2, s2)] intent).bind (fun g => g[(0:ℕ)]?)) =
        [xa, xb] := by
      simp only [List.filterMap_cons, hget1, hget2, List.filterMap_nil]
    rw [hb0]
    simp only [List.cons_append, List.nil_append]
    obtain ⟨t', ht'⟩ := dropDupIds_cons_cons xa xb _ (fun he => hcid he.symm)
    rw [ht']
    rw [show (xa :: xb :: t').take 4 = xa :: xb :: t'.take 2 from rfl]
    exact ⟨⟨xa, by simp, hxa_int⟩, ⟨xb, by simp, hxb_int⟩⟩

/-- C4 (witness): the interleaving guarantee applied to two concrete
intent groups of two candidates each. -/
theorem diversity_interleaving_witness :
    (∃ r ∈ (sortByRelevanceAndDiversity c4Results).take 4,
        r.sub_query_intent = "effectiveness") ∧
    (∃ r ∈ (sortByRelevanceAndDiversity c4Results).take 4,
        r.sub_query_intent = "safety") :=
  diversity_interleaving c4Results "effectiveness" "safety"
    [c4a1, c4a2] [c4b1, c4b2] (by decide) (by decide) (by decide) (by decide)

/-- C3 (counterexample): with the duplicate occurrences arriving as
(distance 0.12, priority 1) then (distance 0.10, priority 2), the distances
differ by 0.02 < 0.05 yet the occurrence kept is the one from the
higher-priority-value sub-query (priority 2), because the strictly-lower
distance wins before the priority rule is consulted. -/
theorem dedup_priority_counterexample :
    mergeAndDeduplicate [c3First, c3Second] = [c3Second] ∧
    |c3First.distance - c3Second.distance| < 1/20 ∧
    c3First.sub_query_priority = 1 ∧ c3Second.sub_query_priority = 2 ∧
    mergeAndDeduplicate [c3First, c3Second] ≠ [c3First] := by
  refine ⟨?_, ?_, rfl, rfl, ?_⟩
  · norm_num [mergeAndDeduplicate, dedupStep, alGet, alSet, pyAbs, c3First, c3Second]
  · rw [show c3First.distance - c3Second.distance = (1/50 : ℚ) by
      norm_num [c3First, c3Second]]
    rw [abs_of_pos (by norm_num)]
    norm_num
  · norm_num [mergeAndDeduplicate, dedupStep, alGet, alSet, pyAbs, c3First, c3Second]

/-- C3 (amended): for a chunk id occurring twice, arriving as `f` then `s`,
the kept occurrence is `s` exactly when `s` has strictly lower distance, or
the distances differ by less than 0.05 and `s` has strictly lower priority
value; consequently when the distances differ by at least 0.05 the
lower-distance occurrence is kept regardless of arrival order. -/
theorem dedup_priority_rule (f s : RetrievalResult) (h : s.chunk_id = f.chunk_id) :
    (mergeAndDeduplicate [f, s] =
      if s.distance < f.distance ∨
          (|s.distance - f.distance| < 1/20 ∧
            s.sub_query_priority < f.sub_query_priority) then [s] else [f]) ∧
    (1/20 ≤ |f.distance - s.distance| → s.distance < f.distance →
      mergeAndDeduplicate [f, s] = [s] ∧ mergeAndDeduplicate [s, f] = [s]) := by
  constructor
  · rw [mergeAndDeduplicate_two f s h, pyAbs_eq_abs]
  · intro hgap hlt
    constructor
    · rw [mergeAndDeduplicate_two f s h, pyAbs_eq_abs, if_pos (Or.inl hlt)]
    · rw [mergeAndDeduplicate_two s f h.symm, pyAbs_eq_abs]
      have h1 : ¬ f.distance < s.distance := not_lt.mpr hlt.le
      have h2 : ¬ |f.distance - s.distance| < 1/20 := not_lt.mpr hgap
      rw [if_neg (by rintro (h' | ⟨h', _⟩) <;> [exact h1 h'; exact h2 h'])]

/-! ## Reranker lemmas -/

theorem sectionLoop_eq_findIdx (s : String) :
    ∀ (l : List String) (idx : ℕ),
      sectionLoop s l idx =
        match l.findIdx? (fun p => strContains s p) idx with
        | some j => 1 - (j : ℚ) * (3/20)
        | none => 2/5
  | [], idx => by simp [sectionLoop]
  | p :: rest, idx => by
    by_cases hc : strContains s p
    · simp [sectionLoop, hc]
    · simp only [sectionLoop, hc, Bool.false_eq_true, if_false, List.findIdx?_cons]
      exact sectionLoop_eq_findIdx s rest (idx + 1)

theorem sectionLoop_bounds (s : String) :
    ∀ (l : List String) (idx : ℕ), l.length + idx ≤ 6 →
      0 ≤ sectionLoop s l idx ∧ sectionLoop s l idx ≤ 1
  | [], idx, _ => by norm_num [sectionLoop]
  | p :: rest, idx, h => by
    by_cases hc : strContains s p
    · have hidx : (idx : ℚ) ≤ 5 := by
        have : idx ≤ 5 := by simp at h; omega
        exact_mod_cast this
      constructor
      · simp only [sectionLoop, hc, if_true]
        nlinarith
      · simp only [sectionLoop, hc, if_true]
        have : 0 ≤ (idx : ℚ) * (3/20) := by positivity
        linarith
    · simp only [sectionLoop, hc, Bool.false_eq_true, if_false]
      exact sectionLoop_bounds s rest (idx + 1) (by simp at h ⊢; omega)

theorem sectionPriorities_length_le (query_intent : String) :
    (sectionPriorities query_intent).length ≤ 3 := by
  unfold sectionPriorities
  split <;> simp

theorem scoreQuality_bounds (m : DocMetadata) : 0 ≤ scoreQuality m ∧ scoreQuality m ≤ 1 := by
  unfold scoreQuality
  split <;> norm_num

theorem scoreStatisticalRelevance_bounds (m : DocMetadata) (b : Bool) :
    0 ≤ scoreStatisticalRelevance m b ∧ scoreStatisticalRelevance m b ≤ 1 := by
  unfold scoreStatisticalRelevance
  rcases b with _ | _ <;> rcases hm : m.is_statistical with _ | _ <;> simp [hm] <;> norm_num

theorem scoreSectionRelevance_bounds (m : DocMetadata) (query_intent : String) :
    0 ≤ scoreSectionRelevance m query_intent ∧ scoreSectionRelevance m query_intent ≤ 1 := by
  unfold scoreSectionRelevance
  refine sectionLoop_bounds _ _ 0 ?_
  have := sectionPriorities_length_le query_intent
  omega

/-! ## C6: section-score monotonicity -/

/-- C6: for a fixed query intent, a candidate whose section name first matches
the intent's section-priority list at index `i` scores `1 - 0.15·i` on the
section component, a candidate matching no entry scores 0.4, and matching an
earlier entry gives a strictly higher section score than matching a later one. -/
theorem section_score_monotone (query_intent : String) :
    (∀ (m : DocMetadata) (i : ℕ), sectionMatchIdx m query_intent = some i →
      scoreSectionRelevance m query_intent = 1 - (i : ℚ) * (3/20)) ∧
    (∀ m : DocMetadata, sectionMatchIdx m query_intent = none →
      scoreSectionRelevance m query_intent = 2/5) ∧
    (∀ (m₁ m₂ : DocMetadata) (i j : ℕ), sectionMatchIdx m₁ query_intent = some i →
      sectionMatchIdx m₂ query_intent = some j → i < j →
      scoreSectionRelevance m₂ query_intent < scoreSectionRelevance m₁ query_intent) := by
  have key : ∀ m : DocMetadata,
      scoreSectionRelevance m query_intent =
        match sectionMatchIdx m query_intent with
        | some j => 1 - (j : ℚ) * (3/20)
        | none => 2/5 := by
    intro m
    unfold scoreSectionRelevance sectionMatchIdx
    exact sectionLoop_eq_findIdx _ _ 0
  refine ⟨?_, ?_, ?_⟩
  · intro m i h
    rw [key m, h]
  · intro m h
    rw [key m, h]
  · intro m₁ m₂ i j h₁ h₂ hij
    rw [key m₁, h₁, key m₂, h₂]
    dsimp only
    have hcast : (i : ℚ) < (j : ℚ) := by exact_mod_cast hij
    exact sub_lt_sub_left
      (mul_lt_mul_of_pos_right hcast (show (0:ℚ) < 3/20 by norm_num)) 1

/-- C6 (witness): under intent `"effectiveness"`, section `"results"` matches
at index 0 and `"authors_conclusions"` at index 1, and the former scores
strictly higher. -/
theorem section_score_monotone_witness :
    scoreSectionRelevance c6Conclusions "effectiveness" <
      scoreSectionRelevance c6Results "effectiveness" :=
  (section_score_monotone "effectiveness").2.2 c6Results c6Conclusions 0 1
    (by decide) (by decide) (by decide)

/-! ## C10: rerank with `top_k = 0` -/

/-- C10: `rerank` with `top_k = 0` returns the full sorted scored list,
identical to `top_k = None` — truncation happens only for truthy `top_k`. -/
theorem rerank_topk_zero (w : ℚ × ℚ × ℚ × ℚ) (documents : List InputDoc) (query : String) :
    rerank w documents query (some 0) = rerank w documents query none ∧
    (rerank w documents query (some 0)).length = documents.length := by
  unfold rerank
  simp

/-! ## C5: weight normalization and score bounds -/

/-- C5 (counterexample): raw weights (3,1,1,1) normalize to
(0.5, 1/6, 1/6, 1/6), not to (0.6, 0.133…, 0.133…, 0.133…) as claimed. -/
theorem reranker_weights_counterexample :
    normalizeWeights 3 1 1 1 = (1/2, 1/6, 1/6, 1/6) ∧
    (normalizeWeights 3 1 1 1).1 ≠ 3/5 := by
  constructor
  · norm_num [normalizeWeights]
  · norm_num [normalizeWeights]

/-- C5 (amended): whenever the four raw weights have a nonzero sum, the
normalized weights sum to 1 (e.g. (3,1,1,1) ↦ (0.5, 1/6, 1/6, 1/6)); and when
they are moreover nonnegative, every document whose stored relevance score
lies in [0,1] gets component scores and a rerank score in [0,1] from `rerank`.
(At an all-zero raw sum Python raises `ZeroDivisionError` instead.) -/
theorem reranker_weights_and_bounds :
    (∀ wq ws wsec wsem : ℚ, wq + ws + wsec + wsem ≠ 0 →
      (normalizeWeights wq ws wsec wsem).1 + (normalizeWeights wq ws wsec wsem).2.1 +
        (normalizeWeights wq ws wsec wsem).2.2.1 +
        (normalizeWeights wq ws wsec wsem).2.2.2 = 1) ∧
    (∀ wq ws wsec wsem : ℚ, 0 ≤ wq → 0 ≤ ws → 0 ≤ wsec → 0 ≤ wsem →
      0 < wq + ws + wsec + wsem →
      ∀ (documents : List InputDoc) (query : String) (top_k : Option ℕ),
      (∀ doc ∈ documents, ∀ x, doc.metadata.relevance_score = some x → 0 ≤ x ∧ x ≤ 1) →
      ∀ sd ∈ rerank (normalizeWeights wq ws wsec wsem) documents query top_k,
        (0 ≤ sd.score_breakdown.quality ∧ sd.score_breakdown.quality ≤ 1) ∧
        (0 ≤ sd.score_breakdown.statistical ∧ sd.score_breakdown.statistical ≤ 1) ∧
        (0 ≤ sd.score_breakdown.«section» ∧ sd.score_breakdown.«section» ≤ 1) ∧
        (0 ≤ sd.score_breakdown.semantic ∧ sd.score_breakdown.semantic ≤ 1) ∧
        (0 ≤ sd.rerank_score ∧ sd.rerank_score ≤ 1)) := by
  constructor
  · intro wq ws wsec wsem h
    unfold normalizeWeights
    field_simp
  · intro wq ws wsec wsem hq hs hsec hsem hpos documents query top_k hrel sd hsd
    have hmem : sd ∈ (documents.map
        (scoreDoc (normalizeWeights wq ws wsec wsem) (detectQueryIntent query)
          (isStatisticalQuery query))).mergeSort byRerankDesc := by
      unfold rerank at hsd
      rcases top_k with _ | k
      · exact hsd
      · rcases eq_or_ne k 0 with hk | hk
        · simpa [hk] using hsd
        · simp only [hk, if_false] at hsd
          exact List.mem_of_mem_take hsd
    rw [List.mem_mergeSort] at hmem
    obtain ⟨doc, hdoc, rfl⟩ := List.mem_map.mp hmem
    set w := normalizeWeights wq ws wsec wsem with hw
    have htot : 0 < wq + ws + wsec + wsem := hpos
    have hw1 : 0 ≤ w.1 := by rw [hw]; exact div_nonneg hq htot.le
    have hw2 : 0 ≤ w.2.1 := by rw [hw]; exact div_nonneg hs htot.le
    have hw3 : 0 ≤ w.2.2.1 := by rw [hw]; exact div_nonneg hsec htot.le
    have hw4 : 0 ≤ w.2.2.2 := by rw [hw]; exact div_nonneg hsem htot.le
    have hwsum : w.1 + w.2.1 + w.2.2.1 + w.2.2.2 = 1 := by
      rw [hw]; unfold normalizeWeights; field_simp
    have hquality := scoreQuality_bounds doc.metadata
    have hstat := scoreStatisticalRelevance_bounds doc.metadata (isStatisticalQuery query)
    have hsection := scoreSectionRelevance_bounds doc.metadata (detectQueryIntent query)
    have hsem' : 0 ≤ (doc.metadata.relevance_score).getD (1/2) ∧
        (doc.metadata.relevance_score).getD (1/2) ≤ 1 := by
      rcases hrs : doc.metadata.relevance_score with _ | x
      · norm_num
      · simpa using hrel doc hdoc x hrs
    have hscore : (scoreDoc w (detectQueryIntent query) (isStatisticalQuery query)
        doc).rerank_score =
        scoreQuality doc.metadata * w.1 +
          scoreStatisticalRelevance doc.metadata (isStatisticalQuery query) * w.2.1 +
          scoreSectionRelevance doc.metadata (detectQueryIntent query) * w.2.2.1 +
          (doc.metadata.relevance_score).getD (1/2) * w.2.2.2 := rfl
    refine ⟨⟨hquality.1, hquality.2⟩, ⟨hstat.1, hstat.2⟩, ⟨hsection.1, hsection.2⟩,
      ⟨hsem'.1, hsem'.2⟩, ?_, ?_⟩
    · rw [hscore]
      have p1 : 0 ≤ scoreQuality doc.metadata * w.1 := mul_nonneg hquality.1 hw1
      have p2 : 0 ≤ scoreStatisticalRelevance doc.metadata (isStatisticalQuery query) * w.2.1 :=
        mul_nonneg hstat.1 hw2
      have p3 : 0 ≤ scoreSectionRelevance doc.metadata (detectQueryIntent query) * w.2.2.1 :=
        mul_nonneg hsection.1 hw3
      have p4 : 0 ≤ (doc.metadata.relevance_score).getD (1/2) * w.2.2.2 :=
        mul_nonneg hsem'.1 hw4
      linarith
    · rw [hscore]
      have b1 : scoreQuality doc.metadata * w.1 ≤ w.1 :=
        mul_le_of_le_one_left hw1 hquality.2
      have b2 : scoreStatisticalRelevance doc.metadata (isStatisticalQuery query) * w.2.1 ≤
          w.2.1 := mul_le_of_le_one_left hw2 hstat.2
      have b3 : scoreSectionRelevance doc.metadata (detectQueryIntent query) * w.2.2.1 ≤
          w.2.2.1 := mul_le_of_le_one_left hw3 hsection.2
      have b4 : (doc.metadata.relevance_score).getD (1/2) * w.2.2.2 ≤ w.2.2.2 :=
        mul_le_of_le_one_left hw4 hsem'.2
      linarith

/-- C5 (witness): at raw weights (3,1,1,1) the normalized weights sum to 1,
and the single scored document built from `c5Doc` (grade A, no stored
relevance score) has its rerank score inside [0,1]. -/
theorem reranker_weights_and_bounds_witness :
    ((normalizeWeights 3 1 1 1).1 + (normalizeWeights 3 1 1 1).2.1 +
      (normalizeWeights 3 1 1 1).2.2.1 + (normalizeWeights 3 1 1 1).2.2.2 = 1) ∧
    (0 ≤ (scoreDoc (normalizeWeights 3 1 1 1) (detectQueryIntent "q")
        (isStatisticalQuery "q") c5Doc).rerank_score ∧
      (scoreDoc (normalizeWeights 3 1 1 1) (detectQueryIntent "q")
        (isStatisticalQuery "q") c5Doc).rerank_score ≤ 1) := by
  constructor
  · exact reranker_weights_and_bounds.1 3 1 1 1 (by norm_num)
  · exact (reranker_weights_and_bounds.2 3 1 1 1 (by norm_num) (by norm_num) (by norm_num)
      (by norm_num) (by norm_num) [c5Doc] "q" none
      (by intro doc hdoc x hx; simp [c5Doc] at hdoc; subst hdoc; simp [c5Doc] at hx)
      (scoreDoc (normalizeWeights 3 1 1 1) (detectQueryIntent "q")
        (isStatisticalQuery "q") c5Doc)
      (by simp [rerank])).2.2.2.2

/-! ## C9: context enrichment is total over level -/

/-- C9: SECTION- and DOCUMENT-level candidates keep their content verbatim;
SUBSECTION-level candidates get section and subsection header lines prepended;
PARAGRAPH-level candidates get the fetched parent's section name prepended as
a header line plus a statistical marker when the parent is flagged
statistical, and fall back to unchanged content when the parent fetch fails
(or there is no parent id); every level is covered by exactly one rule. -/
theorem enrichment_rules (fetch : String → Option ParentChunk) (r : RetrievalResult) :
    ((r.level = "SECTION" ∨ r.level = "DOCUMENT") →
      (enrichOne fetch r).enriched_content = r.content) ∧
    (r.level = "SUBSECTION" → r.section_name ≠ "" → r.subsection_name ≠ "" →
      (enrichOne fetch r).enriched_content =
        "## " ++ r.section_name ++ "\n\n" ++
          ("### " ++ r.subsection_name ++ "\n\n" ++ r.content)) ∧
    (r.level = "PARAGRAPH" → (r.parent_chunk_id = "" ∨ fetch r.parent_chunk_id = none) →
      (enrichOne fetch r).enriched_content = r.content) ∧
    (∀ p : ParentChunk, r.level = "PARAGRAPH" → r.parent_chunk_id ≠ "" →
      fetch r.parent_chunk_id = some p → p.section_name ≠ "" →
      (enrichOne fetch r).enriched_content =
        if p.has_statistical_data then
          "## " ++ p.section_name ++ "\n\n" ++
            (r.content ++ "\n\n" ++ "\n[Contains statistical analysis]")
        else "## " ++ p.section_name ++ "\n\n" ++ r.content) := by
  refine ⟨?_, ?_, ?_, ?_⟩
  · rintro (h | h) <;> simp [enrichOne, h]
  · intro h h1 h2
    simp [enrichOne, h, h1, h2, joinParts]
  · rintro h (h1 | h1)
    · simp [enrichOne, h, h1]
    · by_cases h2 : r.parent_chunk_id = ""
      · simp [enrichOne, h, h2]
      · simp [enrichOne, h, h2, h1]
  · intro p h h1 h2 h3
    rcases hs : p.has_statistical_data with _ | _ <;>
      simp [enrichOne, h, h1, h2, h3, hs, joinParts]

/-- C9 (witness): the four rules evaluated at concrete candidates: a SECTION
candidate is verbatim, a SUBSECTION candidate gets both headers, a PARAGRAPH
candidate whose parent fetch fails is verbatim, and a PARAGRAPH candidate
with a fetched statistical `"Results"` parent gets the header and marker. -/
theorem enrichment_rules_witness :
    (enrichOne c9Fetch c9Section).enriched_content = c9Section.content ∧
    (enrichOne c9Fetch c9Subsection).enriched_content =
      "## " ++ c9Subsection.section_name ++ "\n\n" ++
        ("### " ++ c9Subsection.subsection_name ++ "\n\n" ++ c9Subsection.content) ∧
    (enrichOne c9FetchFail c9Paragraph).enriched_content = c9Paragraph.content ∧
    (enrichOne c9Fetch c9Paragraph).enriched_content =
      if (true : Bool) then
        "## " ++ "Results" ++ "\n\n" ++
          (c9Paragraph.content ++ "\n\n" ++ "\n[Contains statistical analysis]")
      else "## " ++ "Results" ++ "\n\n" ++ c9Paragraph.content :=
  ⟨(enrichment_rules c9Fetch c9Section).1 (Or.inl rfl),
   (enrichment_rules c9Fetch c9Subsection).2.1 rfl (by decide) (by decide),
   (enrichment_rules c9FetchFail c9Paragraph).2.2.1 rfl (Or.inr rfl),
   (enrichment_rules c9Fetch c9Paragraph).2.2.2
     { section_name := "Results", has_statistical_data := true } rfl (by decide) rfl
     (by decide)⟩

/-! ## C8: non-warranted decomposition -/

set_option maxRecDepth 100000 in
/-- C8 (counterexample): `c8Query` matches only the safety intent family and
contains no comparison or multi-outcome connective, yet `decompose` does not
return a single `SubQuery` carrying the original query text: the " and "
alongside "safe" triggers decomposition and the keyword fallback truncates
the query to its first 10 words. -/
theorem decompose_simple_counterexample :
    detectMultipleIntents c8Query = ["safety"] ∧
    strContains (pyLower c8Query) "compare" = false ∧
    strContains (pyLower c8Query) "versus" = false ∧
    strContains (pyLower c8Query) "vs" = false ∧
    strContains (pyLower c8Query) "both" = false ∧
    strContains (pyLower c8Query) "as well as" = false ∧
    decompose c8Query none =
      [{ text := "Is aspirin safe and suitable for elderly people with heart",
         intent := "safety", priority := 1, statistical_only := false,
         section_hint := some "results" }] ∧
    (decompose c8Query none).map SubQuery.text ≠ [c8Query] := by
  refine ⟨?_, ?_, ?_, ?_, ?_, ?_, ?_, ?_⟩
  · decide
  · decide
  · decide
  · decide
  · decide
  · decide
  · decide
  · decide

/-- C8 (amended): for every query that matches fewer than 2 intent-keyword
families, contains no comparison connective ("compare", "versus", " vs "),
contains no multi-outcome connective ("both", "as well as", "along with"),
and does not contain " and " alongside one of "effective"/"safe" (the code's
extra decomposition triggers), `decompose` returns exactly one `SubQuery`
whose text is the original query, whose intent is the detected primary
intent, and whose section hint is the fixed intent→section map's value. -/
theorem decompose_simple_query (query : String) (llm : Option (List SubQuery))
    (hfam : (detectMultipleIntents query).length < 2)
    (hcmp : strContains (pyLower query) "compare" = false)
    (hvers : strContains (pyLower query) "versus" = false)
    (hvs : strContains (pyLower query) " vs " = false)
    (hboth : strContains (pyLower query) "both" = false)
    (hwell : strContains (pyLower query) "as well as" = false)
    (halong : strContains (pyLower query) "along with" = false)
    (hand : strContains (pyLower query) " and " = false ∨
      (strContains (pyLower query) "effective" = false ∧
        strContains (pyLower query) "safe" = false)) :
    decompose query llm =
      [{ text := query, intent := detectQueryIntent query, priority := 1,
         statistical_only := isStatisticalQuery query,
         section_hint := getSectionHint (detectQueryIntent query) }] := by
  have h1 : ¬ 2 ≤ (detectMultipleIntents query).length := by omega
  have hsd : shouldDecompose query = false := by
    unfold shouldDecompose
    rcases hand with hand | ⟨he, hs⟩
    · simp [h1, anyKeywordIn, hcmp, hvers, hvs, hboth, hwell, halong, hand]
    · simp [h1, anyKeywordIn, hcmp, hvers, hvs, hboth, hwell, halong, he, hs]
  unfold decompose
  simp [hsd]

set_option maxRecDepth 100000 in
/-- C8 (witness): the amended rule applied to the trigger-free query
`"what is diabetes"`, which decomposes to a single background-intent
sub-query with section hint `"background"`. -/
theorem decompose_simple_query_witness :
    decompose c8Simple none =
      [{ text := c8Simple, intent := detectQueryIntent c8Simple, priority := 1,
         statistical_only := isStatisticalQuery c8Simple,
         section_hint := getSectionHint (detectQueryIntent c8Simple) }] :=
  decompose_simple_query c8Simple none (by decide) (by decide) (by decide) (by decide)
    (by decide) (by decide) (by decide) (Or.inl (by decide))

/-- C3 (witness): the amended rule applied to concrete occurrences 0.9 and 0.1
of the same chunk id: the distance gap is ≥ 0.05 and the lower-distance
occurrence is kept in both arrival orders. -/
theorem dedup_priority_rule_witness :
    mergeAndDeduplicate [c3Far, c3Near] = [c3Near] ∧
    mergeAndDeduplicate [c3Near, c3Far] = [c3Near] :=
  (dedup_priority_rule c3Far c3Near rfl).2
    (by
      rw [show c3Far.distance - c3Near.distance = (4/5 : ℚ) from by norm_num [c3Far, c3Near],
        abs_of_pos (by norm_num)]
      norm_num)
    (by norm_num [c3Far, c3Near])

end CochraneRAG
